import Mathlib

/-!
# AttributionServiceAsyncServer: similarity engine and processing coordinator

A shallow embedding of `asyncServer/calculator.go`, `asyncServer/models.go` and
`asyncServer/handlers.go`, followed by proofs of what the specification states
about the similarity score and about the handling of submissions.

## Conventions of the embedding

* `float64` is modelled by `F64`: NaN, the two infinities, or a finite value
  carried as an exact rational.  Every arithmetic operation first computes
  the exact rational result and then rounds it to the nearest binary64 value,
  ties to even, with gradual underflow and overflow to an infinity
  (`F64.ofRat`), which is what Go does on targets such as amd64 where each
  operation is rounded on its own.  The sign of zero is not tracked: the
  program never divides by a zero and never inspects the sign bit.
* `strconv.ParseFloat`, `encoding/json` and `math/rand` are library code.  A
  frequency text is represented by what `ParseFloat` makes of it
  (`FreqText`), a request body by what the decoder makes of it, and a random
  draw by the value `Float64()` returns.
* `DjangoClient` is not part of the sources at hand; the outcomes of its two
  reads, and of the callback `http.Post`, are supplied by a `World` record.
* A handler is a function from the in-flight map to a response, the new map
  and the list of effects it caused, in program order.  The section a handler
  runs under `h.mu` is a single step of that function.
-/

namespace AttributionService

/-! ## binary64 arithmetic -/

/-- A `float64` value. -/
inductive F64 where
  | nan : F64
  | inf (neg : Bool) : F64
  | fin (val : ℚ) : F64
deriving DecidableEq

/-- Number of halvings of `n` before it drops below two, with `fuel` steps
allowed. -/
def log2Fuel : ℕ → ℕ → ℕ
  | 0, _ => 0
  | fuel + 1, n => if n < 2 then 0 else log2Fuel fuel (n / 2) + 1

/-- The position of the leading bit of `n` (zero for `n = 0`). -/
def natLog2 (n : ℕ) : ℕ := log2Fuel n n

/-- The binary exponent of a nonzero rational: `2 ^ ilog2 q ≤ |q| < 2 ^ (ilog2 q + 1)`. -/
def ilog2 (q : ℚ) : ℤ :=
  let e0 : ℤ := (natLog2 q.num.natAbs : ℤ) - (natLog2 q.den : ℤ)
  if (2 : ℚ) ^ e0 ≤ |q| then e0 else e0 - 1

/-- Nearest integer, ties to the even one. -/
def roundNE (x : ℚ) : ℤ :=
  let f := ⌊x⌋
  if x - f < 1 / 2 then f
  else if 1 / 2 < x - f then f + 1
  else if f % 2 = 0 then f else f + 1

/-- The exponent of the unit in the last place that binary64 offers at the
magnitude of `q`: 53 significant bits, and no finer than `2 ^ (-1074)`. -/
def ulpExp (q : ℚ) : ℤ := max (ilog2 q) (-1022) - 52

/-- Round to the binary64 grid, exponent unbounded above. -/
def roundGrid (q : ℚ) : ℚ :=
  if q = 0 then 0 else (roundNE (q / (2 : ℚ) ^ ulpExp q) : ℚ) * (2 : ℚ) ^ ulpExp q

namespace F64

/-- The binary64 value nearest to the rational `q` (ties to even); an
infinity when the rounded magnitude exceeds the largest finite value. -/
def ofRat (q : ℚ) : F64 :=
  let r := roundGrid q
  if (2 : ℚ) ^ (1024 : ℕ) ≤ |r| then inf (decide (q < 0)) else fin r

/-- A Go floating-point constant, converted to `float64`. -/
def lit (q : ℚ) : F64 := ofRat q

/-- Unary minus. -/
def neg : F64 → F64
  | nan => nan
  | inf s => inf (!s)
  | fin a => fin (-a)

/-- Go `x + y`. -/
def add : F64 → F64 → F64
  | nan, _ => nan
  | _, nan => nan
  | inf s, inf t => if s = t then inf s else nan
  | inf s, fin _ => inf s
  | fin _, inf t => inf t
  | fin a, fin b => ofRat (a + b)

/-- Go `x - y`. -/
def sub (x y : F64) : F64 := add x (neg y)

/-- Go `x * y`. -/
def mul : F64 → F64 → F64
  | nan, _ => nan
  | _, nan => nan
  | inf s, inf t => inf (xor s t)
  | inf s, fin b => if b = 0 then nan else inf (xor s (decide (b < 0)))
  | fin a, inf t => if a = 0 then nan else inf (xor (decide (a < 0)) t)
  | fin a, fin b => ofRat (a * b)

/-- Go `x / y`. -/
def div : F64 → F64 → F64
  | nan, _ => nan
  | _, nan => nan
  | inf _, inf _ => nan
  | inf s, fin b => inf (xor s (decide (b < 0)))
  | fin _, inf _ => fin 0
  | fin a, fin b =>
    if b = 0 then (if a = 0 then nan else inf (decide (a < 0))) else ofRat (a / b)

instance : Add F64 := ⟨add⟩
instance : Sub F64 := ⟨sub⟩
instance : Mul F64 := ⟨mul⟩
instance : Div F64 := ⟨div⟩

/-- Go `x < y`: false as soon as an operand is NaN. -/
def lt : F64 → F64 → Bool
  | nan, _ => false
  | _, nan => false
  | inf s, inf t => s && !t
  | inf s, fin _ => s
  | fin _, inf t => !t
  | fin a, fin b => decide (a < b)

/-- Go `x > y`. -/
def gt (x y : F64) : Bool := lt y x

/-- Go `math.Abs`. -/
def abs : F64 → F64
  | nan => nan
  | inf _ => inf false
  | fin a => fin |a|

/-- Go `math.Min`: minus infinity wins, then NaN, then the smaller operand. -/
def min (x y : F64) : F64 :=
  if x = inf true ∨ y = inf true then inf true
  else if x = nan ∨ y = nan then nan
  else if lt x y then x else y

/-- Go `math.Max`: plus infinity wins, then NaN, then the larger operand. -/
def max (x y : F64) : F64 :=
  if x = inf false ∨ y = inf false then inf false
  else if x = nan ∨ y = nan then nan
  else if gt x y then x else y

/-- Nearest integer, halfway cases away from zero. -/
def roundHalfAway (q : ℚ) : ℤ :=
  if 0 ≤ q then ⌊q + 1 / 2⌋ else -⌊-q + 1 / 2⌋

/-- Go `math.Round`: NaN and the infinities are returned as they are. -/
def round : F64 → F64
  | nan => nan
  | inf s => inf s
  | fin a => fin (roundHalfAway a)

end F64

/-! ## Data model (`models.go`) -/

/-- What `strconv.ParseFloat(text, 64)` makes of a frequency text: an error
(`"abc"`, the out-of-range `"1e400"`), or a value with a nil error
(`"50.0"` gives `fin 50`, `"Inf"` gives `inf false`, `"NaN"` gives `nan`). -/
inductive FreqText where
  | unparseable : FreqText
  | parses (f : F64) : FreqText
deriving DecidableEq

/-- `ComposerAnalysis`: the join record. -/
structure ComposerAnalysis where
  ID : Int
  ComposerID : Int
  AnalysisID : Int
  AnonUnisonsSecondsFreq : Option FreqText
  AnonThirdsFreq : Option FreqText
  AnonFourthsFifthsFreq : Option FreqText
  AnonSixthsSeventhsFreq : Option FreqText
  AnonOctavesFreq : Option FreqText
  PotentialCoincidence : String

/-- `IntervalStat`: one entry of `interval_stats`. -/
structure IntervalStat where
  IntervalGroup : String
  Frequency : Option F64
  StdDev : Option F64

/-- `Composer`. -/
structure Composer where
  ID : Int
  Name : String
  Biography : Option String
  Image : Option String
  AnalyzedWorks : Int
  TotalIntervals : Int
  Period : String
  PolyphonyType : String
  IntervalStats : List IntervalStat

/-! ## Similarity engine (`calculator.go`) -/

/-- The closure `parseFloat` of `calculateSimpleSimilarity`. -/
def parseFloat : Option FreqText → Option F64
  | none => none
  | some (FreqText.parses f) => some f
  | some FreqText.unparseable => none

/-- An element of the slice `intervals`. -/
structure Interval where
  composerStatIndex : ℕ
  analysisFreq : Option FreqText
  weight : F64

/-- The slice `intervals` of `calculateSimpleSimilarity`. -/
def intervals (analysis : ComposerAnalysis) : List Interval :=
  [ ⟨0, analysis.AnonUnisonsSecondsFreq, F64.lit 0.25⟩,
    ⟨1, analysis.AnonThirdsFreq, F64.lit 0.20⟩,
    ⟨2, analysis.AnonFourthsFifthsFreq, F64.lit 0.20⟩,
    ⟨3, analysis.AnonSixthsSeventhsFreq, F64.lit 0.20⟩,
    ⟨4, analysis.AnonOctavesFreq, F64.lit 0.15⟩ ]

/-- The value `similarity` computed for a slot with both frequencies. -/
def slotSimilarity (anaFreq compFreq : F64) : F64 :=
  let deviation := F64.abs (anaFreq - compFreq)
  let maxPossibleDeviation := F64.lit 100.0
  F64.lit 1.0 - deviation / maxPossibleDeviation

/-- One iteration of the loop over `intervals`; `acc` is
`(totalSimilarity, totalWeight)`. -/
def loopBody (composer : Composer) (acc : F64 × F64) (interval : Interval) : F64 × F64 :=
  if h : composer.IntervalStats.length > interval.composerStatIndex then
    let compStat := composer.IntervalStats.get ⟨interval.composerStatIndex, h⟩
    let anaFreq := parseFloat interval.analysisFreq
    match compStat.Frequency, anaFreq with
    | some compFreq, some anaFreq =>
      let similarity := slotSimilarity anaFreq compFreq
      (acc.1 + similarity * interval.weight, acc.2 + interval.weight)
    | _, _ => acc
  else acc

/-- The totals `(totalSimilarity, totalWeight)` after the loop. -/
def totals (composer : Composer) (analysis : ComposerAnalysis) : F64 × F64 :=
  (intervals analysis).foldl (loopBody composer) (F64.fin 0, F64.fin 0)

/-- The method `calculateSimpleSimilarity`; `u` is the value that
`c.random.Float64()` returns if it is called. -/
def calculateSimpleSimilarity (u : F64) (composer : Composer)
    (analysis : ComposerAnalysis) : F64 :=
  let totalSimilarity := (totals composer analysis).1
  let totalWeight := (totals composer analysis).2
  if F64.gt totalWeight (F64.lit 0) then
    let result := (totalSimilarity / totalWeight) * F64.lit 100
    let result := F64.max (F64.lit 0) (F64.min (F64.lit 100) result)
    F64.round (result * F64.lit 100) / F64.lit 100
  else
    F64.lit 30 + u * F64.lit 40

/-- The method `CalculatePotentialCoincidence`: one draw for the simulated
delay (the sleep itself has no effect on the value), then the score. -/
def CalculatePotentialCoincidence (uDelay u : F64) (composer : Composer)
    (analysis : ComposerAnalysis) : F64 :=
  let _delay := F64.lit 5 + uDelay * F64.lit 5
  calculateSimpleSimilarity u composer analysis

/-! ## Requests, responses and the remote side (`models.go`, `handlers.go`) -/

/-- `ComposerAnalysisRequest`. -/
structure ComposerAnalysisRequest where
  ComposerAnalysisID : Int
  ComposerID : Int
  AnalysisID : Int
  SecretKey : String
deriving DecidableEq

/-- `ComposerAnalysisResponse`: the body of the asynchronous callback. -/
structure ComposerAnalysisResponse where
  ComposerAnalysisID : Int
  PotentialCoincidence : F64
  SecretKey : String
deriving DecidableEq

/-- `ComposerAnalysisSyncResponse`. -/
structure ComposerAnalysisSyncResponse where
  ComposerAnalysisID : Int
  PotentialCoincidence : F64
  SecretKey : String
  Status : String
deriving DecidableEq

/-- The part of `*http.Request` the handlers read: the method, and what
`json.NewDecoder(r.Body).Decode(&req)` yields (`none` when it fails). -/
structure HttpRequest where
  Method : String
  Body : Option ComposerAnalysisRequest

/-- What a handler writes as the response body. -/
inductive ResponseBody where
  | text (msg : String) : ResponseBody
  | accepted : ResponseBody
  | result (r : ComposerAnalysisSyncResponse) : ResponseBody
  | empty : ResponseBody
deriving DecidableEq

/-- Status code and body of the response. -/
structure Response where
  status : ℕ
  body : ResponseBody
deriving DecidableEq

/-- Go `http.Error(w, msg, code)`. -/
def httpError (msg : String) (code : ℕ) : Response := ⟨code, ResponseBody.text msg⟩

/-- Go `http.StatusOK`. -/
def StatusOK : ℕ := 200

/-- Go `http.StatusAccepted`. -/
def StatusAccepted : ℕ := 202

/-- Go `http.StatusBadRequest`. -/
def StatusBadRequest : ℕ := 400

/-- Go `http.StatusUnauthorized`. -/
def StatusUnauthorized : ℕ := 401

/-- Go `http.StatusMethodNotAllowed`. -/
def StatusMethodNotAllowed : ℕ := 405

/-- Go `http.StatusConflict`. -/
def StatusConflict : ℕ := 409

/-- Go `http.StatusInternalServerError`. -/
def StatusInternalServerError : ℕ := 500

/-- The hard-coded `expectedSecretKey`. -/
def expectedSecretKey : String := "music_analysis_secret_2024"

/-- The map `h.processing` of type `map[int64]bool`. -/
abbrev Processing := Int → Option Bool

namespace Processing

/-- Go `make(map[int64]bool)`. -/
def make : Processing := fun _ => none

/-- Go `m[k]`: the zero value `false` for a missing key. -/
def index (m : Processing) (k : Int) : Bool := (m k).getD false

/-- Go `m[k] = v`. -/
def store (m : Processing) (k : Int) (v : Bool) : Processing := Function.update m k (some v)

/-- Go `delete(m, k)`. -/
def delete (m : Processing) (k : Int) : Processing := Function.update m k none

end Processing

/-- The remote reads of `DjangoClient`, given by their outcomes. -/
structure DjangoClient where
  baseURL : String
  GetComposerAnalysis : Int → Int → Int → Except String ComposerAnalysis
  GetComposer : Int → Except String Composer

/-- Everything outside the handler that a run depends on: the Django client,
the outcome of `http.Post` (an error, or the status code of the response) and
the two values drawn from `c.random`. -/
structure World where
  djangoClient : DjangoClient
  httpPost : String → ComposerAnalysisResponse → Except String ℕ
  uDelay : F64
  uFallback : F64

/-- The externally visible actions of a run, in program order. -/
inductive Effect where
  | GetComposerAnalysis (composerAnalysisID analysisID composerID : Int) : Effect
  | GetComposer (composerID : Int) : Effect
  | CalculatePotentialCoincidence (composerID composerAnalysisID : Int) : Effect
  | Post (url : String) (body : ComposerAnalysisResponse) : Effect
  | Go (req : ComposerAnalysisRequest) : Effect
deriving DecidableEq

/-- The effect is a remote read. -/
def Effect.isFetch : Effect → Bool
  | Effect.GetComposerAnalysis _ _ _ => true
  | Effect.GetComposer _ => true
  | _ => false

/-- The effect is a score computation. -/
def Effect.isCompute : Effect → Bool
  | Effect.CalculatePotentialCoincidence _ _ => true
  | _ => false

/-- The effect is a callback write. -/
def Effect.isPost : Effect → Bool
  | Effect.Post _ _ => true
  | _ => false

/-- `encoding/json` encodes a `float64` unless it is NaN or an infinity. -/
def jsonEncodable : F64 → Bool
  | F64.fin _ => true
  | _ => false

/-! ## Processing coordinator (`handlers.go`) -/

/-- The method `sendResultToDjango`: the effects it causes.  A failed
`json.Marshal`, a failed `http.Post` and a status other than 200 are logged
and otherwise ignored. -/
def sendResultToDjango (world : World) (composerAnalysisID : Int) (coincidence : F64) :
    List Effect :=
  let result : ComposerAnalysisResponse :=
    ⟨composerAnalysisID, coincidence, "music_analysis_secret_2024"⟩
  let callbackURL := world.djangoClient.baseURL ++ "/api/analysis-callback/"
  if jsonEncodable result.PotentialCoincidence then
    match world.httpPost callbackURL result with
    | Except.error _ => [Effect.Post callbackURL result]
    | Except.ok _ => [Effect.Post callbackURL result]
  else []

/-- The body of `processComposerAnalysis` without the deferred function. -/
def processComposerAnalysisBody (world : World) (req : ComposerAnalysisRequest) : List Effect :=
  match world.djangoClient.GetComposerAnalysis req.ComposerAnalysisID req.AnalysisID
      req.ComposerID with
  | Except.error _ =>
    [Effect.GetComposerAnalysis req.ComposerAnalysisID req.AnalysisID req.ComposerID]
  | Except.ok composerAnalysis =>
    match world.djangoClient.GetComposer req.ComposerID with
    | Except.error _ =>
      [Effect.GetComposerAnalysis req.ComposerAnalysisID req.AnalysisID req.ComposerID,
        Effect.GetComposer req.ComposerID]
    | Except.ok composer =>
      let coincidence :=
        CalculatePotentialCoincidence world.uDelay world.uFallback composer composerAnalysis
      [Effect.GetComposerAnalysis req.ComposerAnalysisID req.AnalysisID req.ComposerID,
        Effect.GetComposer req.ComposerID,
        Effect.CalculatePotentialCoincidence composer.ID composerAnalysis.ID]
        ++ sendResultToDjango world req.ComposerAnalysisID coincidence

/-- The method `processComposerAnalysis`: the body, then the deferred
`delete(h.processing, req.ComposerAnalysisID)` under the lock. -/
def processComposerAnalysis (world : World) (processing : Processing)
    (req : ComposerAnalysisRequest) : Processing × List Effect :=
  let effects := processComposerAnalysisBody world req
  (processing.delete req.ComposerAnalysisID, effects)

/-- The method `processComposerAnalysisSync`. -/
def processComposerAnalysisSync (world : World) (req : ComposerAnalysisRequest) :
    Except String ComposerAnalysisSyncResponse × List Effect :=
  match world.djangoClient.GetComposerAnalysis req.ComposerAnalysisID req.AnalysisID
      req.ComposerID with
  | Except.error err =>
    (Except.error ("failed to get composer analysis: " ++ err),
      [Effect.GetComposerAnalysis req.ComposerAnalysisID req.AnalysisID req.ComposerID])
  | Except.ok composerAnalysis =>
    match world.djangoClient.GetComposer req.ComposerID with
    | Except.error err =>
      (Except.error ("failed to get composer: " ++ err),
        [Effect.GetComposerAnalysis req.ComposerAnalysisID req.AnalysisID req.ComposerID,
          Effect.GetComposer req.ComposerID])
    | Except.ok composer =>
      let coincidence :=
        CalculatePotentialCoincidence world.uDelay world.uFallback composer composerAnalysis
      (Except.ok ⟨req.ComposerAnalysisID, coincidence, "music_analysis_secret_2024", "completed"⟩,
        [Effect.GetComposerAnalysis req.ComposerAnalysisID req.AnalysisID req.ComposerID,
          Effect.GetComposer req.ComposerID,
          Effect.CalculatePotentialCoincidence composer.ID composerAnalysis.ID])

/-- The section of `CalculateCoincidenceHandler` between `h.mu.Lock()` and
`h.mu.Unlock()`: `true` when the id was free and is now registered. -/
def checkAndRegister (processing : Processing) (composerAnalysisID : Int) :
    Bool × Processing :=
  if processing.index composerAnalysisID then (false, processing)
  else (true, processing.store composerAnalysisID true)

/-- The method `CalculateCoincidenceHandler`: the response, the in-flight map
afterwards and the effects.  The goroutine it starts is the effect `Go req`;
its run is `processComposerAnalysis`. -/
def CalculateCoincidenceHandler (processing : Processing) (r : HttpRequest) :
    Response × Processing × List Effect :=
  if r.Method ≠ "POST" then
    (httpError "Method not allowed" StatusMethodNotAllowed, processing, [])
  else
    match r.Body with
    | none => (httpError "Invalid request body" StatusBadRequest, processing, [])
    | some req =>
      if req.SecretKey ≠ expectedSecretKey then
        (httpError "Invalid secret key" StatusUnauthorized, processing, [])
      else
        match checkAndRegister processing req.ComposerAnalysisID with
        | (false, processing) =>
          (httpError "Analysis already being processed" StatusConflict, processing, [])
        | (true, processing) =>
          (⟨StatusAccepted, ResponseBody.accepted⟩, processing, [Effect.Go req])

/-- The method `CalculateCoincidenceSyncHandler`.  A result that
`json.NewEncoder(w).Encode` rejects leaves the body empty. -/
def CalculateCoincidenceSyncHandler (world : World) (processing : Processing)
    (r : HttpRequest) : Response × Processing × List Effect :=
  if r.Method ≠ "POST" then
    (httpError "Method not allowed" StatusMethodNotAllowed, processing, [])
  else
    match r.Body with
    | none => (httpError "Invalid request body" StatusBadRequest, processing, [])
    | some req =>
      if req.SecretKey ≠ expectedSecretKey then
        (httpError "Invalid secret key" StatusUnauthorized, processing, [])
      else
        match processComposerAnalysisSync world req with
        | (Except.error err, effects) =>
          (httpError err StatusInternalServerError, processing, effects)
        | (Except.ok result, effects) =>
          if jsonEncodable result.PotentialCoincidence then
            (⟨StatusOK, ResponseBody.result result⟩, processing, effects)
          else (⟨StatusOK, ResponseBody.empty⟩, processing, effects)

/-! ## Notions used to state the properties -/

namespace F64

/-- Go `x <= y`: false as soon as an operand is NaN. -/
def le : F64 → F64 → Bool
  | nan, _ => false
  | _, nan => false
  | inf s, inf t => s || !t
  | inf s, fin _ => s
  | fin _, inf t => !t
  | fin a, fin b => decide (a ≤ b)

/-- The value is finite and lies between `A` and `B`. -/
def Within (A B : ℚ) (x : F64) : Prop := ∃ r : ℚ, x = fin r ∧ A ≤ r ∧ r ≤ B

/-- The value is minus infinity or finite and at most `B`. -/
def AtMost (B : ℚ) (x : F64) : Prop := x = inf true ∨ ∃ r : ℚ, x = fin r ∧ r ≤ B

/-- The value is plus infinity or finite and at least `A`. -/
def AtLeast (A : ℚ) (x : F64) : Prop := x = inf false ∨ ∃ r : ℚ, x = fin r ∧ A ≤ r

end F64

/-- The analysis frequency and the composer frequency of a slot with
comparable data: the composer has a statistic at the position of the slot,
that statistic has a frequency, and the analysis text parses. -/
def slotData (composer : Composer) (interval : Interval) : Option (F64 × F64) :=
  match composer.IntervalStats[interval.composerStatIndex]? with
  | none => none
  | some compStat =>
    match compStat.Frequency, parseFloat interval.analysisFreq with
    | some compFreq, some anaFreq => some (anaFreq, compFreq)
    | _, _ => none

/-- A slot with comparable data: analysis frequency `a`, composer frequency
`c`, weight `w`. -/
structure Slot where
  a : F64
  c : F64
  w : F64

/-- The slot of an interval, when it has comparable data. -/
def slotOf (composer : Composer) (interval : Interval) : Option Slot :=
  (slotData composer interval).map fun p => ⟨p.1, p.2, interval.weight⟩

/-- The slots among the five that have comparable data, in order. -/
def comparableSlots (composer : Composer) (analysis : ComposerAnalysis) : List Slot :=
  (intervals analysis).filterMap (slotOf composer)

/-- The sum of `similarity * weight` over the slots, where
`similarity = 1 - |a - c| / 100`, accumulated from the left in `float64`. -/
def weightedSimilaritySum (slots : List Slot) : F64 :=
  slots.foldl (fun s x => s + (F64.lit 1 - F64.abs (x.a - x.c) / F64.lit 100) * x.w) (F64.fin 0)

/-- The sum of the weights of the slots, accumulated from the left in `float64`. -/
def weightSum (slots : List Slot) : F64 :=
  slots.foldl (fun s x => s + x.w) (F64.fin 0)

/-- A composer whose interval statistics carry the given frequencies. -/
def composerWith (freqs : List (Option F64)) : Composer :=
  ⟨1, "composer", none, none, 0, 0, "", "", freqs.map fun f => ⟨"", f, none⟩⟩

/-- An analysis record with the given five frequency texts. -/
def analysisWith (t0 t1 t2 t3 t4 : Option FreqText) : ComposerAnalysis :=
  ⟨1, 1, 1, t0, t1, t2, t3, t4, ""⟩

/-- A slot on which the loop cannot produce a NaN: the analysis frequency is
not NaN, the composer frequency is finite, and the weight is a finite value
between 1/8 and 1. -/
def Slot.Good (x : Slot) : Prop :=
  x.a ≠ F64.nan ∧ (∃ c : ℚ, x.c = F64.fin c) ∧ ∃ w : ℚ, x.w = F64.fin w ∧ 1 / 8 ≤ w ∧ w ≤ 1

/-- The weight of the slot is a finite value between 1/8 and 1. -/
def Slot.GoodWeight (x : Slot) : Prop := ∃ w : ℚ, x.w = F64.fin w ∧ 1 / 8 ≤ w ∧ w ≤ 1

/-- Every frequency of the composer is a finite number, which is all a JSON
number can carry. -/
def Composer.FiniteFrequencies (composer : Composer) : Prop :=
  ∀ stat ∈ composer.IntervalStats, ∀ f : F64, stat.Frequency = some f → ∃ q : ℚ, f = F64.fin q

/-- None of the five frequency texts parses to NaN. -/
def ComposerAnalysis.NoNaN (analysis : ComposerAnalysis) : Prop :=
  ∀ interval ∈ intervals analysis, parseFloat interval.analysisFreq ≠ some F64.nan

/-- No slot has comparable data: in each of the five slots the analysis text
is absent or unparseable, or the composer has no statistic at that position,
or the statistic has no frequency. -/
def NoComparableData (composer : Composer) (analysis : ComposerAnalysis) : Prop :=
  ∀ interval ∈ intervals analysis,
    parseFloat interval.analysisFreq = none ∨
    composer.IntervalStats[interval.composerStatIndex]? = none ∨
    ∃ stat, composer.IntervalStats[interval.composerStatIndex]? = some stat ∧
      stat.Frequency = none

/-- The value has at most two decimal digits: it is the `float64` nearest to
`n / 100` for a whole number `n`. -/
def TwoDecimals (x : F64) : Prop := ∃ n : ℤ, x = F64.ofRat ((n : ℚ) / 100)

/-- A composer with frequency 50.0 in all five statistics. -/
def composerFifty : Composer :=
  composerWith [some (F64.fin 50), some (F64.fin 50), some (F64.fin 50), some (F64.fin 50),
    some (F64.fin 50)]

/-- An analysis record whose five texts are `"50.0"`. -/
def analysisFifty : ComposerAnalysis :=
  analysisWith (some (FreqText.parses (F64.fin 50))) (some (FreqText.parses (F64.fin 50)))
    (some (FreqText.parses (F64.fin 50))) (some (FreqText.parses (F64.fin 50)))
    (some (FreqText.parses (F64.fin 50)))

/-- An analysis record whose first text is `"NaN"`, the others absent. -/
def analysisNaN : ComposerAnalysis :=
  analysisWith (some (FreqText.parses F64.nan)) none none none none

/-- An analysis record with all five texts absent. -/
def analysisAbsent : ComposerAnalysis := analysisWith none none none none none

/-- A composer with one statistic, of frequency 0.0. -/
def composerZero : Composer := composerWith [some (F64.fin 0)]

/-- An analysis record whose first text is `"12.5"`, the others absent. -/
def analysisTwelveAndHalf : ComposerAnalysis :=
  analysisWith (some (FreqText.parses (F64.fin (25 / 2)))) none none none none

/-- In each of the five slots the composer has a statistic with a finite
frequency and the analysis text parses to the same number. -/
def AllSlotsEqual (composer : Composer) (analysis : ComposerAnalysis) : Prop :=
  ∀ interval ∈ intervals analysis, ∃ (stat : IntervalStat) (q : ℚ),
    composer.IntervalStats[interval.composerStatIndex]? = some stat ∧
    stat.Frequency = some (F64.fin q) ∧
    interval.analysisFreq = some (FreqText.parses (F64.fin q))

/-- In each of the five slots the composer has a statistic with a finite
frequency `c`, the analysis text parses to a finite `a`, and `|a - c| = 100`. -/
def AllSlotsHundredApart (composer : Composer) (analysis : ComposerAnalysis) : Prop :=
  ∀ interval ∈ intervals analysis, ∃ (stat : IntervalStat) (a c : ℚ),
    composer.IntervalStats[interval.composerStatIndex]? = some stat ∧
    stat.Frequency = some (F64.fin c) ∧
    interval.analysisFreq = some (FreqText.parses (F64.fin a)) ∧ |a - c| = 100

/-- A composer with frequency 0.0 in all five statistics. -/
def composerAllZero : Composer :=
  composerWith [some (F64.fin 0), some (F64.fin 0), some (F64.fin 0), some (F64.fin 0),
    some (F64.fin 0)]

/-- An analysis record whose five texts are `"100.0"`. -/
def analysisHundred : ComposerAnalysis :=
  analysisWith (some (FreqText.parses (F64.fin 100))) (some (FreqText.parses (F64.fin 100)))
    (some (FreqText.parses (F64.fin 100))) (some (FreqText.parses (F64.fin 100)))
    (some (FreqText.parses (F64.fin 100)))

/-- At least one slot has comparable data: the composer has a statistic with
a frequency at the position of the slot and the analysis text parses. -/
def HasComparableData (composer : Composer) (analysis : ComposerAnalysis) : Prop :=
  ∃ interval ∈ intervals analysis, ∃ (stat : IntervalStat) (c a : F64),
    composer.IntervalStats[interval.composerStatIndex]? = some stat ∧
    stat.Frequency = some c ∧ parseFloat interval.analysisFreq = some a

/-- A world in which both reads succeed with the given records, every
callback is answered with status 200, and the draw for the fallback is `u`. -/
def worldWith (analysis : ComposerAnalysis) (composer : Composer) (u : F64) : World :=
  { djangoClient :=
      { baseURL := "http://django:8000"
        GetComposerAnalysis := fun _ _ _ => Except.ok analysis
        GetComposer := fun _ => Except.ok composer }
    httpPost := fun _ _ => Except.ok 200
    uDelay := F64.fin 0
    uFallback := u }

/-- A world in which the read of the join record fails. -/
def worldWithoutJoinRecord : World :=
  { djangoClient :=
      { baseURL := "http://django:8000"
        GetComposerAnalysis := fun _ _ _ => Except.error "unavailable"
        GetComposer := fun _ => Except.error "unavailable" }
    httpPost := fun _ _ => Except.error "unavailable"
    uDelay := F64.fin 0
    uFallback := F64.fin 0 }

/-- Two asynchronous submissions whose sections under the lock run one after
the other, nothing finishing in between: the two responses in that order, the
in-flight map afterwards, and all effects. -/
def submitTwice (processing : Processing) (first second : HttpRequest) :
    Response × Response × Processing × List Effect :=
  let r₁ := CalculateCoincidenceHandler processing first
  let r₂ := CalculateCoincidenceHandler r₁.2.1 second
  (r₁.1, r₂.1, r₂.2.1, r₁.2.2 ++ r₂.2.2)

/-- The number of callback writes among the effects. -/
def callbackWrites (effects : List Effect) : ℕ := effects.countP Effect.isPost

/-- The effect starts a goroutine. -/
def Effect.isGo : Effect → Bool
  | Effect.Go _ => true
  | _ => false

/-! ## Rounding to binary64: exponent, grid and monotonicity -/

theorem log2Fuel_spec (fuel : ℕ) : ∀ n : ℕ, 1 ≤ n → n ≤ fuel →
    2 ^ log2Fuel fuel n ≤ n ∧ n < 2 ^ (log2Fuel fuel n + 1) := by
  induction fuel with
  | zero => intro n h1 h2; omega
  | succ fuel ih =>
    intro n h1 h2
    unfold log2Fuel
    split_ifs with h
    · constructor
      · simpa using h1
      · simpa using h
    · have h3 : 1 ≤ n / 2 := by omega
      have h4 : n / 2 ≤ fuel := by omega
      obtain ⟨ha, hb⟩ := ih (n / 2) h3 h4
      constructor
      · rw [pow_succ]; omega
      · rw [pow_succ]; omega

theorem natLog2_spec (n : ℕ) (h : 1 ≤ n) :
    2 ^ natLog2 n ≤ n ∧ n < 2 ^ (natLog2 n + 1) :=
  log2Fuel_spec n n h le_rfl

theorem abs_eq_natAbs_div_den (q : ℚ) : |q| = (q.num.natAbs : ℚ) / (q.den : ℚ) := by
  have h : |q| = (|q.num| : ℚ) / (q.den : ℚ) := by
    conv_lhs => rw [← Rat.num_div_den q]
    rw [abs_div, Nat.abs_cast]
  rw [h, Nat.cast_natAbs, Int.cast_abs]

theorem ilog2_spec (q : ℚ) (hq : q ≠ 0) :
    (2 : ℚ) ^ ilog2 q ≤ |q| ∧ |q| < (2 : ℚ) ^ (ilog2 q + 1) := by
  have ha1 : 1 ≤ q.num.natAbs := by
    have : q.num ≠ 0 := Rat.num_ne_zero.mpr hq
    omega
  have hd1 : 1 ≤ q.den := q.den_pos
  obtain ⟨ha, ha'⟩ := natLog2_spec _ ha1
  obtain ⟨hd, hd'⟩ := natLog2_spec _ hd1
  have hdpos : (0 : ℚ) < q.den := by exact_mod_cast hd1
  have haQ : (2 : ℚ) ^ (natLog2 q.num.natAbs) ≤ q.num.natAbs := by exact_mod_cast ha
  have haQ' : (q.num.natAbs : ℚ) < (2 : ℚ) ^ (natLog2 q.num.natAbs + 1) := by exact_mod_cast ha'
  have hdQ : (2 : ℚ) ^ (natLog2 q.den) ≤ q.den := by exact_mod_cast hd
  have hdQ' : (q.den : ℚ) < (2 : ℚ) ^ (natLog2 q.den + 1) := by exact_mod_cast hd'
  have habs := abs_eq_natAbs_div_den q
  have two_pos : (0 : ℚ) < 2 := by norm_num
  -- upper bound: |q| < 2 ^ (e0 + 1)
  have hup : |q| < (2 : ℚ) ^ (((natLog2 q.num.natAbs : ℤ) - (natLog2 q.den : ℤ)) + 1) := by
    rw [habs, div_lt_iff₀ hdpos]
    have : (2 : ℚ) ^ (((natLog2 q.num.natAbs : ℤ) - (natLog2 q.den : ℤ)) + 1) * (2 : ℚ) ^ (natLog2 q.den)
        = (2 : ℚ) ^ (natLog2 q.num.natAbs + 1) := by
      rw [← zpow_natCast, ← zpow_add₀ (by norm_num : (2 : ℚ) ≠ 0), ← zpow_natCast]
      congr 1
      push_cast
      ring
    calc (q.num.natAbs : ℚ) < (2 : ℚ) ^ (natLog2 q.num.natAbs + 1) := haQ'
      _ = (2 : ℚ) ^ (((natLog2 q.num.natAbs : ℤ) - (natLog2 q.den : ℤ)) + 1) * (2 : ℚ) ^ (natLog2 q.den) := this.symm
      _ ≤ _ := by
        apply mul_le_mul_of_nonneg_left hdQ
        positivity
  -- lower bound: 2 ^ (e0 - 1) ≤ |q|
  have hlo : (2 : ℚ) ^ (((natLog2 q.num.natAbs : ℤ) - (natLog2 q.den : ℤ)) - 1) ≤ |q| := by
    rw [habs, le_div_iff₀ hdpos]
    have : (2 : ℚ) ^ (((natLog2 q.num.natAbs : ℤ) - (natLog2 q.den : ℤ)) - 1) * (2 : ℚ) ^ (natLog2 q.den + 1)
        = (2 : ℚ) ^ (natLog2 q.num.natAbs) := by
      rw [← zpow_natCast, ← zpow_add₀ (by norm_num : (2 : ℚ) ≠ 0), ← zpow_natCast]
      congr 1
      push_cast
      ring
    calc _ ≤ (2 : ℚ) ^ (((natLog2 q.num.natAbs : ℤ) - (natLog2 q.den : ℤ)) - 1) * (2 : ℚ) ^ (natLog2 q.den + 1) := by
          apply mul_le_mul_of_nonneg_left hdQ'.le
          positivity
      _ = (2 : ℚ) ^ (natLog2 q.num.natAbs) := this
      _ ≤ _ := haQ
  unfold ilog2
  simp only
  split_ifs with h
  · exact ⟨h, hup⟩
  · refine ⟨hlo, ?_⟩
    rw [sub_add_cancel]
    exact lt_of_not_le h

theorem roundNE_intCast (n : ℤ) : roundNE (n : ℚ) = n := by
  unfold roundNE
  simp

theorem floor_le_roundNE (x : ℚ) : ⌊x⌋ ≤ roundNE x := by
  unfold roundNE
  simp only
  split_ifs <;> omega

theorem roundNE_le_floor_add_one (x : ℚ) : roundNE x ≤ ⌊x⌋ + 1 := by
  unfold roundNE
  simp only
  split_ifs <;> omega

theorem roundNE_mono {x y : ℚ} (h : x ≤ y) : roundNE x ≤ roundNE y := by
  have hf : ⌊x⌋ ≤ ⌊y⌋ := Int.floor_mono h
  rcases hf.lt_or_eq with hlt | heq
  · calc roundNE x ≤ ⌊x⌋ + 1 := roundNE_le_floor_add_one x
      _ ≤ ⌊y⌋ := hlt
      _ ≤ roundNE y := floor_le_roundNE y
  · unfold roundNE
    simp only
    rw [← heq]
    have hxy : x - ⌊x⌋ ≤ y - ⌊x⌋ := by linarith
    split_ifs <;> first | omega | linarith

theorem roundNE_le_of_le {x : ℚ} {n : ℤ} (h : x ≤ n) : roundNE x ≤ n := by
  have := roundNE_mono h
  rwa [roundNE_intCast] at this

theorem le_roundNE_of_le {x : ℚ} {n : ℤ} (h : (n : ℚ) ≤ x) : n ≤ roundNE x := by
  have := roundNE_mono h
  rwa [roundNE_intCast] at this

theorem two_zpow_pos (e : ℤ) : (0 : ℚ) < (2 : ℚ) ^ e := by positivity

theorem intPow_mul_zpow (n : ℕ) (e : ℤ) :
    (((2 : ℤ) ^ n : ℤ) : ℚ) * (2 : ℚ) ^ e = (2 : ℚ) ^ (e + (n : ℤ)) := by
  rw [zpow_add₀ (by norm_num : (2 : ℚ) ≠ 0), zpow_natCast, Int.cast_pow, Int.cast_ofNat, mul_comm]

theorem roundGrid_nonneg {q : ℚ} (h : 0 ≤ q) : 0 ≤ roundGrid q := by
  unfold roundGrid
  split_ifs with h0
  · exact le_rfl
  · apply mul_nonneg _ (two_zpow_pos _).le
    have : ((0 : ℤ) : ℚ) ≤ q / (2 : ℚ) ^ ulpExp q := by
      simpa using div_nonneg h (two_zpow_pos _).le
    exact_mod_cast le_roundNE_of_le this

theorem roundGrid_nonpos {q : ℚ} (h : q ≤ 0) : roundGrid q ≤ 0 := by
  unfold roundGrid
  split_ifs with h0
  · exact le_rfl
  · apply mul_nonpos_of_nonpos_of_nonneg _ (two_zpow_pos _).le
    have : q / (2 : ℚ) ^ ulpExp q ≤ ((0 : ℤ) : ℚ) := by
      simpa using div_nonpos_of_nonpos_of_nonneg h (two_zpow_pos _).le
    exact_mod_cast roundNE_le_of_le this

theorem ilog2_mono {q₁ q₂ : ℚ} (h₁ : 0 < q₁) (h : q₁ ≤ q₂) : ilog2 q₁ ≤ ilog2 q₂ := by
  have h₂ : 0 < q₂ := lt_of_lt_of_le h₁ h
  obtain ⟨a, _⟩ := ilog2_spec q₁ h₁.ne'
  obtain ⟨_, b⟩ := ilog2_spec q₂ h₂.ne'
  rw [abs_of_pos h₁] at a
  rw [abs_of_pos h₂] at b
  have : (2 : ℚ) ^ ilog2 q₁ < (2 : ℚ) ^ (ilog2 q₂ + 1) := lt_of_le_of_lt (le_trans a h) b
  have := (zpow_lt_zpow_iff_right₀ (by norm_num : (1 : ℚ) < 2)).mp this
  omega

theorem ulpExp_mono {q₁ q₂ : ℚ} (h₁ : 0 < q₁) (h : q₁ ≤ q₂) : ulpExp q₁ ≤ ulpExp q₂ := by
  unfold ulpExp
  have := ilog2_mono h₁ h
  omega

/-- A positive `q` lies below the top of its binade. -/
theorem lt_two_zpow_ulpExp {q : ℚ} (h : 0 < q) : q < (2 : ℚ) ^ (ulpExp q + 53) := by
  obtain ⟨_, b⟩ := ilog2_spec q h.ne'
  rw [abs_of_pos h] at b
  refine lt_of_lt_of_le b ?_
  apply zpow_le_zpow_right₀ (by norm_num)
  unfold ulpExp
  omega

/-- Above the subnormal range a positive `q` lies above the bottom of its binade. -/
theorem two_zpow_ulpExp_le {q : ℚ} (h : 0 < q) (he : -1074 < ulpExp q) :
    (2 : ℚ) ^ (ulpExp q + 52) ≤ q := by
  obtain ⟨a, _⟩ := ilog2_spec q h.ne'
  rw [abs_of_pos h] at a
  have : ulpExp q + 52 = ilog2 q := by
    unfold ulpExp at he ⊢
    omega
  rw [this]
  exact a

theorem roundGrid_le_top {q : ℚ} (h : 0 < q) : roundGrid q ≤ (2 : ℚ) ^ (ulpExp q + 53) := by
  unfold roundGrid
  rw [if_neg h.ne']
  have hq : q / (2 : ℚ) ^ ulpExp q ≤ (((2 : ℤ) ^ 53 : ℤ) : ℚ) := by
    rw [div_le_iff₀ (two_zpow_pos _)]
    have : (((2 : ℤ) ^ 53 : ℤ) : ℚ) * (2 : ℚ) ^ ulpExp q = (2 : ℚ) ^ (ulpExp q + 53) :=
      intPow_mul_zpow 53 _
    rw [this]
    exact (lt_two_zpow_ulpExp h).le
  have hr : ((roundNE (q / (2 : ℚ) ^ ulpExp q) : ℤ) : ℚ) ≤ (((2 : ℤ) ^ 53 : ℤ) : ℚ) := by
    exact_mod_cast roundNE_le_of_le hq
  calc _ ≤ (((2 : ℤ) ^ 53 : ℤ) : ℚ) * (2 : ℚ) ^ ulpExp q :=
        mul_le_mul_of_nonneg_right hr (two_zpow_pos _).le
    _ = (2 : ℚ) ^ (ulpExp q + 53) := intPow_mul_zpow 53 _

theorem bottom_le_roundGrid {q : ℚ} (h : 0 < q) (he : -1074 < ulpExp q) :
    (2 : ℚ) ^ (ulpExp q + 52) ≤ roundGrid q := by
  unfold roundGrid
  rw [if_neg h.ne']
  have key : (((2 : ℤ) ^ 52 : ℤ) : ℚ) * (2 : ℚ) ^ ulpExp q = (2 : ℚ) ^ (ulpExp q + 52) :=
    intPow_mul_zpow 52 _
  have hq : (((2 : ℤ) ^ 52 : ℤ) : ℚ) ≤ q / (2 : ℚ) ^ ulpExp q := by
    rw [le_div_iff₀ (two_zpow_pos _), key]
    exact two_zpow_ulpExp_le h he
  have hr : (((2 : ℤ) ^ 52 : ℤ) : ℚ) ≤ ((roundNE (q / (2 : ℚ) ^ ulpExp q) : ℤ) : ℚ) := by
    exact_mod_cast le_roundNE_of_le hq
  calc (2 : ℚ) ^ (ulpExp q + 52) = (((2 : ℤ) ^ 52 : ℤ) : ℚ) * (2 : ℚ) ^ ulpExp q := key.symm
    _ ≤ _ := mul_le_mul_of_nonneg_right hr (two_zpow_pos _).le

theorem ulpExp_ge (q : ℚ) : -1074 ≤ ulpExp q := by
  unfold ulpExp
  omega

theorem roundGrid_mono_nonneg {q₁ q₂ : ℚ} (h₁ : 0 ≤ q₁) (h : q₁ ≤ q₂) :
    roundGrid q₁ ≤ roundGrid q₂ := by
  rcases h₁.lt_or_eq with hpos | h0
  · have hpos₂ : 0 < q₂ := lt_of_lt_of_le hpos h
    rcases (ulpExp_mono hpos h).lt_or_eq with hlt | heq
    · have he : -1074 < ulpExp q₂ := lt_of_le_of_lt (ulpExp_ge q₁) hlt
      calc roundGrid q₁ ≤ (2 : ℚ) ^ (ulpExp q₁ + 53) := roundGrid_le_top hpos
        _ ≤ (2 : ℚ) ^ (ulpExp q₂ + 52) := by
          apply zpow_le_zpow_right₀ (by norm_num)
          omega
        _ ≤ roundGrid q₂ := bottom_le_roundGrid hpos₂ he
    · unfold roundGrid
      rw [if_neg hpos.ne', if_neg hpos₂.ne', heq]
      apply mul_le_mul_of_nonneg_right _ (two_zpow_pos _).le
      have : q₁ / (2 : ℚ) ^ ulpExp q₂ ≤ q₂ / (2 : ℚ) ^ ulpExp q₂ :=
        div_le_div_of_nonneg_right h (two_zpow_pos _).le
      exact_mod_cast roundNE_mono this
  · rw [← h0]
    have : roundGrid 0 = 0 := by simp [roundGrid]
    rw [this]
    exact roundGrid_nonneg (h0 ▸ h)

/-! ## The loop of `calculateSimpleSimilarity` as two sums over the comparable slots -/

theorem F64.add_def (x y : F64) : x + y = F64.add x y := rfl
theorem F64.sub_def (x y : F64) : x - y = F64.sub x y := rfl
theorem F64.mul_def (x y : F64) : x * y = F64.mul x y := rfl
theorem F64.div_def (x y : F64) : x / y = F64.div x y := rfl

theorem lit_one_point_zero : F64.lit 1.0 = F64.lit 1 := by decide!
theorem lit_hundred_point_zero : F64.lit 100.0 = F64.lit 100 := by decide!

theorem slotSimilarity_eq (a c : F64) :
    slotSimilarity a c = F64.lit 1 - F64.abs (a - c) / F64.lit 100 := by
  unfold slotSimilarity
  simp only [lit_one_point_zero, lit_hundred_point_zero]

theorem loopBody_eq (composer : Composer) (acc : F64 × F64) (interval : Interval) :
    loopBody composer acc interval =
      match slotOf composer interval with
      | some x => (acc.1 + (F64.lit 1 - F64.abs (x.a - x.c) / F64.lit 100) * x.w, acc.2 + x.w)
      | none => acc := by
  unfold loopBody slotOf slotData
  by_cases h : composer.IntervalStats.length > interval.composerStatIndex
  · rw [dif_pos h, List.getElem?_eq_getElem h]
    simp only [List.get_eq_getElem]
    rcases hf : (composer.IntervalStats[interval.composerStatIndex]).Frequency with _ | cf <;>
      rcases hp : parseFloat interval.analysisFreq with _ | af <;>
      simp [slotSimilarity_eq]
  · rw [dif_neg h]
    have : composer.IntervalStats[interval.composerStatIndex]? = none :=
      List.getElem?_eq_none (by omega)
    simp [this]

theorem foldl_loopBody (composer : Composer) (l : List Interval) : ∀ acc : F64 × F64,
    l.foldl (loopBody composer) acc =
      (l.filterMap (slotOf composer)).foldl
        (fun acc x => (acc.1 + (F64.lit 1 - F64.abs (x.a - x.c) / F64.lit 100) * x.w,
          acc.2 + x.w)) acc := by
  induction l with
  | nil => intro acc; rfl
  | cons i l ih =>
    intro acc
    rw [List.foldl_cons, ih, loopBody_eq]
    rcases h : slotOf composer i with _ | x
    · simp [List.filterMap_cons, h]
    · simp [List.filterMap_cons, h]

theorem foldl_pair (slots : List Slot) : ∀ acc : F64 × F64,
    slots.foldl (fun acc x => (acc.1 + (F64.lit 1 - F64.abs (x.a - x.c) / F64.lit 100) * x.w,
        acc.2 + x.w)) acc =
      (slots.foldl (fun s x => s + (F64.lit 1 - F64.abs (x.a - x.c) / F64.lit 100) * x.w) acc.1,
        slots.foldl (fun s x => s + x.w) acc.2) := by
  induction slots with
  | nil => intro acc; rfl
  | cons x l ih => intro acc; simp only [List.foldl_cons, ih]

theorem totals_eq (composer : Composer) (analysis : ComposerAnalysis) :
    totals composer analysis =
      (weightedSimilaritySum (comparableSlots composer analysis),
        weightSum (comparableSlots composer analysis)) := by
  unfold totals weightedSimilaritySum weightSum comparableSlots
  rw [foldl_loopBody, foldl_pair]

/-! ## Bounds on rounded results -/

theorem ofRat_cases (q : ℚ) : (∃ s, F64.ofRat q = F64.inf s) ∨ ∃ r, F64.ofRat q = F64.fin r := by
  unfold F64.ofRat
  simp only
  split_ifs
  · exact Or.inl ⟨_, rfl⟩
  · exact Or.inr ⟨_, rfl⟩

theorem ofRat_ne_nan (q : ℚ) : F64.ofRat q ≠ F64.nan := by
  rcases ofRat_cases q with ⟨s, h⟩ | ⟨r, h⟩ <;> simp [h]

theorem ofRat_within {A B q : ℚ} (hA0 : 0 ≤ A) (hA : roundGrid A = A) (hB : roundGrid B = B)
    (hBlt : B < (2 : ℚ) ^ (1024 : ℕ)) (h1 : A ≤ q) (h2 : q ≤ B) :
    F64.Within A B (F64.ofRat q) := by
  have hq0 : 0 ≤ q := le_trans hA0 h1
  have hr1 : A ≤ roundGrid q := by
    have := roundGrid_mono_nonneg hA0 h1
    rwa [hA] at this
  have hr2 : roundGrid q ≤ B := by
    have := roundGrid_mono_nonneg hq0 h2
    rwa [hB] at this
  have hr0 : 0 ≤ roundGrid q := roundGrid_nonneg hq0
  unfold F64.ofRat
  simp only
  rw [if_neg]
  · exact ⟨_, rfl, hr1, hr2⟩
  · rw [abs_of_nonneg hr0]
    exact not_le.mpr (lt_of_le_of_lt hr2 hBlt)

theorem ofRat_atMost {B q : ℚ} (hB0 : 0 ≤ B) (hB : roundGrid B = B)
    (hBlt : B < (2 : ℚ) ^ (1024 : ℕ)) (h : q ≤ B) : F64.AtMost B (F64.ofRat q) := by
  rcases le_or_lt 0 q with hq | hq
  · obtain ⟨r, hr, _, hr2⟩ :=
      ofRat_within le_rfl (by simp [roundGrid]) hB hBlt hq h
    exact Or.inr ⟨r, hr, hr2⟩
  · unfold F64.ofRat
    simp only
    split_ifs
    · left
      simp [hq]
    · right
      exact ⟨_, rfl, le_trans (roundGrid_nonpos hq.le) hB0⟩

theorem ofRat_atLeast {A q : ℚ} (hA0 : 0 ≤ A) (hA : roundGrid A = A) (h : A ≤ q) :
    F64.AtLeast A (F64.ofRat q) := by
  have hq0 : 0 ≤ q := le_trans hA0 h
  have hr1 : A ≤ roundGrid q := by
    have := roundGrid_mono_nonneg hA0 h
    rwa [hA] at this
  unfold F64.ofRat
  simp only
  split_ifs
  · left
    simp [not_lt.mpr hq0]
  · right
    exact ⟨_, rfl, hr1⟩

theorem roundGrid_zero : roundGrid 0 = 0 := by decide!
theorem roundGrid_one : roundGrid 1 = 1 := by decide!
theorem roundGrid_eighth : roundGrid (1 / 8) = 1 / 8 := by decide!
theorem roundGrid_thirty : roundGrid 30 = 30 := by decide!
theorem roundGrid_forty : roundGrid 40 = 40 := by decide!
theorem roundGrid_seventy : roundGrid 70 = 70 := by decide!
theorem roundGrid_hundred : roundGrid 100 = 100 := by decide!
theorem roundGrid_tenThousand : roundGrid 10000 = 10000 := by decide!

theorem roundGrid_small_nat (n : ℕ) (h : n ≤ 6) : roundGrid (n : ℚ) = (n : ℚ) := by
  interval_cases n <;> decide!

theorem lit_zero : F64.lit 0 = F64.fin 0 := by decide!
theorem lit_one : F64.lit 1 = F64.fin 1 := by decide!
theorem lit_thirty : F64.lit 30 = F64.fin 30 := by decide!
theorem lit_forty : F64.lit 40 = F64.fin 40 := by decide!
theorem lit_hundred : F64.lit 100 = F64.fin 100 := by decide!
theorem lit_weight_quarter : F64.lit 0.25 = F64.fin (1 / 4) := by decide!
theorem lit_weight_fifth :
    F64.lit 0.20 = F64.fin (3602879701896397 / 18014398509481984) := by decide!
theorem lit_weight_octaves :
    F64.lit 0.15 = F64.fin (5404319552844595 / 36028797018963968) := by decide!

theorem small_lt_huge {B : ℚ} (h : B ≤ 10000) : B < (2 : ℚ) ^ (1024 : ℕ) := by
  have : (10000 : ℚ) < (2 : ℚ) ^ (1024 : ℕ) := by norm_num
  linarith

/-! ## The totals never become NaN on inputs without NaN -/

theorem abs_sub_atLeast {a : F64} (c : ℚ) (ha : a ≠ F64.nan) :
    F64.AtLeast 0 (F64.abs (a - F64.fin c)) := by
  rw [F64.sub_def]
  cases a with
  | nan => exact absurd rfl ha
  | inf s => exact Or.inl rfl
  | fin a =>
    show F64.AtLeast 0 (F64.abs (F64.ofRat (a + -c)))
    rcases ofRat_cases (a + -c) with ⟨s, h⟩ | ⟨r, h⟩
    · rw [h]
      exact Or.inl rfl
    · rw [h]
      exact Or.inr ⟨|r|, rfl, abs_nonneg r⟩

theorem div_hundred_atLeast {d : F64} (h : F64.AtLeast 0 d) :
    F64.AtLeast 0 (d / F64.lit 100) := by
  rw [lit_hundred, F64.div_def]
  rcases h with rfl | ⟨r, rfl, hr⟩
  · left
    simp [F64.div]
  · have e : F64.div (F64.fin r) (F64.fin 100) = F64.ofRat (r / 100) := by
      simp [F64.div]
    rw [e]
    exact ofRat_atLeast le_rfl roundGrid_zero (div_nonneg hr (by norm_num))

theorem one_sub_atMost {y : F64} (h : F64.AtLeast 0 y) : F64.AtMost 1 (F64.lit 1 - y) := by
  rw [lit_one, F64.sub_def]
  rcases h with rfl | ⟨r, rfl, hr⟩
  · exact Or.inl rfl
  · show F64.AtMost 1 (F64.ofRat (1 + -r))
    exact ofRat_atMost zero_le_one roundGrid_one (small_lt_huge (by norm_num)) (by linarith)

theorem similarity_atMost {a : F64} (c : ℚ) (ha : a ≠ F64.nan) :
    F64.AtMost 1 (F64.lit 1 - F64.abs (a - F64.fin c) / F64.lit 100) :=
  one_sub_atMost (div_hundred_atLeast (abs_sub_atLeast c ha))

theorem mul_weight_atMost {s : F64} {w : ℚ} (h : F64.AtMost 1 s) (hw0 : 0 < w) (hw1 : w ≤ 1) :
    F64.AtMost 1 (s * F64.fin w) := by
  rw [F64.mul_def]
  rcases h with rfl | ⟨r, rfl, hr⟩
  · left
    simp [F64.mul, hw0.ne', not_lt.mpr hw0.le]
  · show F64.AtMost 1 (F64.ofRat (r * w))
    apply ofRat_atMost zero_le_one roundGrid_one (small_lt_huge (by norm_num))
    rcases le_or_lt r 0 with h0 | h0
    · nlinarith
    · nlinarith

theorem add_atMost {acc t : F64} {n : ℕ} (hn : n + 1 ≤ 6) (h : F64.AtMost (n : ℚ) acc)
    (ht : F64.AtMost 1 t) : F64.AtMost ((n + 1 : ℕ) : ℚ) (acc + t) := by
  rw [F64.add_def]
  rcases h with rfl | ⟨r, rfl, hr⟩
  · rcases ht with rfl | ⟨y, rfl, _⟩
    · exact Or.inl rfl
    · exact Or.inl rfl
  · rcases ht with rfl | ⟨y, rfl, hy⟩
    · exact Or.inl rfl
    · show F64.AtMost ((n + 1 : ℕ) : ℚ) (F64.ofRat (r + y))
      apply ofRat_atMost (by positivity) (roundGrid_small_nat _ hn)
      · apply small_lt_huge
        have : ((n + 1 : ℕ) : ℚ) ≤ 6 := by exact_mod_cast hn
        linarith
      · push_cast
        linarith

theorem add_weight_within {tw : F64} {w : ℚ} {n : ℕ} (hn : n + 1 ≤ 6)
    (h : F64.Within 0 (n : ℚ) tw) (hw0 : 1 / 8 ≤ w) (hw1 : w ≤ 1) :
    F64.Within (1 / 8) ((n + 1 : ℕ) : ℚ) (tw + F64.fin w) := by
  rw [F64.add_def]
  obtain ⟨t, rfl, ht0, ht1⟩ := h
  show F64.Within (1 / 8) ((n + 1 : ℕ) : ℚ) (F64.ofRat (t + w))
  apply ofRat_within (by norm_num) roundGrid_eighth (roundGrid_small_nat _ hn)
  · apply small_lt_huge
    have : ((n + 1 : ℕ) : ℚ) ≤ 6 := by exact_mod_cast hn
    linarith
  · linarith
  · push_cast
    linarith

theorem foldl_similarity_atMost (slots : List Slot) : ∀ (n : ℕ) (acc : F64),
    n + slots.length ≤ 6 → (∀ x ∈ slots, x.Good) → F64.AtMost (n : ℚ) acc →
    F64.AtMost ((n + slots.length : ℕ) : ℚ)
      (slots.foldl
        (fun s x => s + (F64.lit 1 - F64.abs (x.a - x.c) / F64.lit 100) * x.w) acc) := by
  induction slots with
  | nil => intro n acc _ _ h; simpa using h
  | cons x l ih =>
    intro n acc hn hgood h
    obtain ⟨ha, ⟨c, hc⟩, w, hw, hw0, hw1⟩ := hgood x (List.mem_cons_self _ _)
    have hlen : (x :: l).length = l.length + 1 := rfl
    have step : F64.AtMost ((n + 1 : ℕ) : ℚ)
        (acc + (F64.lit 1 - F64.abs (x.a - x.c) / F64.lit 100) * x.w) := by
      rw [hc, hw]
      exact add_atMost (by omega) h
        (mul_weight_atMost (similarity_atMost c ha) (by linarith) hw1)
    have := ih (n + 1) _ (by omega) (fun y hy => hgood y (List.mem_cons_of_mem _ hy)) step
    rw [List.foldl_cons, hlen]
    have e : n + (l.length + 1) = n + 1 + l.length := by omega
    rw [e]
    exact this

theorem foldl_weight_within (slots : List Slot) : ∀ (n : ℕ) (acc : F64),
    n + slots.length ≤ 6 → (∀ x ∈ slots, x.GoodWeight) → F64.Within 0 (n : ℚ) acc →
    F64.Within 0 ((n + slots.length : ℕ) : ℚ) (slots.foldl (fun s x => s + x.w) acc) ∧
      (slots ≠ [] →
        F64.Within (1 / 8) ((n + slots.length : ℕ) : ℚ) (slots.foldl (fun s x => s + x.w) acc)) := by
  induction slots with
  | nil => intro n acc _ _ h; exact ⟨by simpa using h, fun h => absurd rfl h⟩
  | cons x l ih =>
    intro n acc hn hgood h
    obtain ⟨w, hw, hw0, hw1⟩ := hgood x (List.mem_cons_self _ _)
    have hlen : (x :: l).length = l.length + 1 := rfl
    have step : F64.Within (1 / 8) ((n + 1 : ℕ) : ℚ) (acc + x.w) := by
      rw [hw]
      exact add_weight_within (by omega) h hw0 hw1
    have step0 : F64.Within 0 ((n + 1 : ℕ) : ℚ) (acc + x.w) := by
      obtain ⟨r, hr, h1, h2⟩ := step
      exact ⟨r, hr, by linarith, h2⟩
    have e : n + (l.length + 1) = n + 1 + l.length := by omega
    rw [List.foldl_cons, hlen, e]
    have hl := ih (n + 1) _ (by omega) (fun y hy => hgood y (List.mem_cons_of_mem _ hy)) step0
    refine ⟨hl.1, fun _ => ?_⟩
    rcases l with _ | ⟨y, l'⟩
    · simpa using step
    · exact hl.2 (by simp)

theorem interval_weight_bounds {analysis : ComposerAnalysis} {interval : Interval}
    (h : interval ∈ intervals analysis) :
    ∃ w : ℚ, interval.weight = F64.fin w ∧ 1 / 8 ≤ w ∧ w ≤ 1 := by
  simp only [intervals, List.mem_cons, List.mem_singleton, List.not_mem_nil, or_false] at h
  rcases h with rfl | rfl | rfl | rfl | rfl
  · exact ⟨_, lit_weight_quarter, by norm_num, by norm_num⟩
  · exact ⟨_, lit_weight_fifth, by norm_num, by norm_num⟩
  · exact ⟨_, lit_weight_fifth, by norm_num, by norm_num⟩
  · exact ⟨_, lit_weight_fifth, by norm_num, by norm_num⟩
  · exact ⟨_, lit_weight_octaves, by norm_num, by norm_num⟩

theorem slotData_some {composer : Composer} {interval : Interval} {a c : F64}
    (h : slotData composer interval = some (a, c)) :
    parseFloat interval.analysisFreq = some a ∧
      ∃ stat ∈ composer.IntervalStats, stat.Frequency = some c := by
  unfold slotData at h
  rcases hs : composer.IntervalStats[interval.composerStatIndex]? with _ | stat
  · simp [hs] at h
  · rcases hf : stat.Frequency with _ | cf <;>
      rcases hp : parseFloat interval.analysisFreq with _ | af <;>
      simp [hs, hf, hp] at h
    obtain ⟨rfl, rfl⟩ := h
    exact ⟨rfl, stat, List.getElem?_mem hs, hf⟩

theorem comparableSlots_good {composer : Composer} {analysis : ComposerAnalysis}
    (hc : composer.FiniteFrequencies) (ha : analysis.NoNaN) :
    ∀ x ∈ comparableSlots composer analysis, x.Good := by
  intro x hx
  unfold comparableSlots at hx
  rw [List.mem_filterMap] at hx
  obtain ⟨interval, hmem, hslot⟩ := hx
  unfold slotOf at hslot
  rcases hd : slotData composer interval with _ | ⟨a, c⟩
  · simp [hd] at hslot
  · simp only [hd, Option.map_some', Option.some.injEq] at hslot
    obtain ⟨hp, stat, hstat, hf⟩ := slotData_some hd
    subst hslot
    refine ⟨?_, hc stat hstat c hf, interval_weight_bounds hmem⟩
    intro hnan
    apply ha interval hmem
    rw [hp]
    exact congrArg some hnan

theorem comparableSlots_goodWeight (composer : Composer) (analysis : ComposerAnalysis) :
    ∀ x ∈ comparableSlots composer analysis, x.GoodWeight := by
  intro x hx
  unfold comparableSlots at hx
  rw [List.mem_filterMap] at hx
  obtain ⟨interval, hmem, hslot⟩ := hx
  unfold slotOf at hslot
  rcases hd : slotData composer interval with _ | ⟨a, c⟩
  · simp [hd] at hslot
  · simp only [hd, Option.map_some', Option.some.injEq] at hslot
    subst hslot
    exact interval_weight_bounds hmem

theorem comparableSlots_length (composer : Composer) (analysis : ComposerAnalysis) :
    (comparableSlots composer analysis).length ≤ 5 := by
  unfold comparableSlots
  exact le_trans (List.length_filterMap_le _ _) (by simp [intervals])

theorem weightSum_within {composer : Composer} {analysis : ComposerAnalysis}
    (hne : comparableSlots composer analysis ≠ []) :
    F64.Within (1 / 8) ((0 + (comparableSlots composer analysis).length : ℕ) : ℚ)
      (weightSum (comparableSlots composer analysis)) :=
  (foldl_weight_within (comparableSlots composer analysis) 0 (F64.fin 0)
    (by have := comparableSlots_length composer analysis; omega)
    (comparableSlots_goodWeight composer analysis) ⟨0, rfl, by simp, by simp⟩).2 hne

theorem comparableSlots_eq_nil {composer : Composer} {analysis : ComposerAnalysis}
    (h : NoComparableData composer analysis) : comparableSlots composer analysis = [] := by
  unfold comparableSlots
  rw [List.filterMap_eq_nil_iff]
  intro interval hmem
  unfold slotOf slotData
  rcases h interval hmem with hp | hs | ⟨stat, hs, hf⟩
  · rcases hs : composer.IntervalStats[interval.composerStatIndex]? with _ | stat
    · simp
    · rcases hf : stat.Frequency with _ | cf <;> simp [hp, hf]
  · simp [hs]
  · simp [hs, hf]

theorem slotData_eq_some_iff (composer : Composer) (interval : Interval) (a c : F64) :
    slotData composer interval = some (a, c) ↔
      ∃ stat, composer.IntervalStats[interval.composerStatIndex]? = some stat ∧
        stat.Frequency = some c ∧ parseFloat interval.analysisFreq = some a := by
  unfold slotData
  rcases hs : composer.IntervalStats[interval.composerStatIndex]? with _ | stat
  · simp
  · rcases hf : stat.Frequency with _ | cf <;>
      rcases hp : parseFloat interval.analysisFreq with _ | af <;>
      simp [hf, hp]
    exact and_comm

theorem comparableSlots_ne_nil {composer : Composer} {analysis : ComposerAnalysis}
    (h : HasComparableData composer analysis) : comparableSlots composer analysis ≠ [] := by
  obtain ⟨interval, hmem, stat, c, a, hs, hf, hp⟩ := h
  have hd : slotData composer interval = some (a, c) :=
    (slotData_eq_some_iff composer interval a c).mpr ⟨stat, hs, hf, hp⟩
  have : (⟨a, c, interval.weight⟩ : Slot) ∈ comparableSlots composer analysis := by
    unfold comparableSlots
    rw [List.mem_filterMap]
    exact ⟨interval, hmem, by simp [slotOf, hd]⟩
  exact List.ne_nil_of_mem this

/-! ## From the totals to the score -/

theorem pre_clamp_ne_nan {tS tW : F64} {B B' : ℚ} (h1 : F64.AtMost B tS)
    (h2 : F64.Within (1 / 8) B' tW) : tS / tW * F64.lit 100 ≠ F64.nan := by
  obtain ⟨t, rfl, ht, _⟩ := h2
  have ht0 : t ≠ 0 := by
    intro h
    rw [h] at ht
    norm_num at ht
  rw [lit_hundred, F64.mul_def, F64.div_def]
  rcases h1 with rfl | ⟨r, rfl, _⟩
  · simp [F64.div, F64.mul]
  · have e : F64.div (F64.fin r) (F64.fin t) = F64.ofRat (r / t) := by simp [F64.div, ht0]
    rw [e]
    rcases ofRat_cases (r / t) with ⟨s, h⟩ | ⟨y, h⟩
    · rw [h]
      simp [F64.mul]
    · rw [h]
      exact ofRat_ne_nan _

theorem clamp_within {x : F64} (hx : x ≠ F64.nan) :
    F64.Within 0 100 (F64.max (F64.lit 0) (F64.min (F64.lit 100) x)) := by
  rw [lit_zero, lit_hundred]
  cases x with
  | nan => exact absurd rfl hx
  | inf s =>
    cases s
    · exact ⟨100, by simp [F64.min, F64.max, F64.lt, F64.gt], by norm_num, le_rfl⟩
    · exact ⟨0, by simp [F64.min, F64.max, F64.lt, F64.gt], le_rfl, by norm_num⟩
  | fin r =>
    by_cases h100 : (100 : ℚ) < r
    · exact ⟨100, by simp [F64.min, F64.max, F64.lt, F64.gt, h100], by norm_num, le_rfl⟩
    · by_cases h0 : r < 0
      · exact ⟨0, by simp [F64.min, F64.max, F64.lt, F64.gt, h100, h0], le_rfl, by norm_num⟩
      · exact ⟨r, by simp [F64.min, F64.max, F64.lt, F64.gt, h100, h0], not_lt.mp h0,
          not_lt.mp h100⟩

theorem round_mul_hundred {x : F64} (h : F64.Within 0 100 x) :
    ∃ n : ℤ, 0 ≤ n ∧ n ≤ 10000 ∧ F64.round (x * F64.lit 100) = F64.fin (n : ℚ) := by
  obtain ⟨r, rfl, hr0, hr1⟩ := h
  rw [lit_hundred, F64.mul_def]
  show ∃ n : ℤ, 0 ≤ n ∧ n ≤ 10000 ∧ F64.round (F64.ofRat (r * 100)) = F64.fin (n : ℚ)
  obtain ⟨m, hm, hm0, hm1⟩ :=
    @ofRat_within 0 10000 (r * 100) le_rfl roundGrid_zero roundGrid_tenThousand
      (small_lt_huge le_rfl) (by linarith) (by linarith)
  rw [hm]
  refine ⟨⌊m + 1 / 2⌋, ?_, ?_, ?_⟩
  · exact Int.floor_nonneg.mpr (by linarith)
  · have : ⌊m + 1 / 2⌋ < 10001 := by
      rw [Int.floor_lt]
      push_cast
      linarith
    omega
  · simp [F64.round, F64.roundHalfAway, hm0]

theorem div_hundred_within {n : ℤ} (h0 : 0 ≤ n) (h1 : n ≤ 10000) :
    F64.fin (n : ℚ) / F64.lit 100 = F64.ofRat ((n : ℚ) / 100) ∧
      F64.Within 0 100 (F64.ofRat ((n : ℚ) / 100)) := by
  constructor
  · rw [lit_hundred, F64.div_def]
    simp [F64.div]
  · have a : (0 : ℚ) ≤ (n : ℚ) := by exact_mod_cast h0
    have b : (n : ℚ) ≤ 10000 := by exact_mod_cast h1
    apply ofRat_within le_rfl roundGrid_zero roundGrid_hundred (small_lt_huge (by norm_num))
    · exact div_nonneg a (by norm_num)
    · rw [div_le_iff₀ (by norm_num)]
      linarith

theorem score_of_totals {tS tW : F64} {B B' : ℚ} (h1 : F64.AtMost B tS)
    (h2 : F64.Within (1 / 8) B' tW) :
    ∃ n : ℤ, 0 ≤ n ∧ n ≤ 10000 ∧
      F64.round (F64.max (F64.lit 0) (F64.min (F64.lit 100) (tS / tW * F64.lit 100))
        * F64.lit 100) / F64.lit 100 = F64.ofRat ((n : ℚ) / 100) := by
  obtain ⟨n, hn0, hn1, hn⟩ := round_mul_hundred (clamp_within (pre_clamp_ne_nan h1 h2))
  exact ⟨n, hn0, hn1, by rw [hn]; exact (div_hundred_within hn0 hn1).1⟩

theorem weight_gt_zero {tW : F64} {B : ℚ} (h : F64.Within (1 / 8) B tW) :
    F64.gt tW (F64.lit 0) = true := by
  obtain ⟨t, rfl, ht, _⟩ := h
  rw [lit_zero]
  simp only [F64.gt, F64.lt, decide_eq_true_eq]
  linarith

theorem score_weighted (u : F64) {composer : Composer} {analysis : ComposerAnalysis}
    (hc : composer.FiniteFrequencies) (ha : analysis.NoNaN)
    (hne : comparableSlots composer analysis ≠ []) :
    ∃ n : ℤ, 0 ≤ n ∧ n ≤ 10000 ∧
      calculateSimpleSimilarity u composer analysis = F64.ofRat ((n : ℚ) / 100) := by
  have hgood := comparableSlots_good hc ha
  have hlen := comparableSlots_length composer analysis
  have hS := foldl_similarity_atMost (comparableSlots composer analysis) 0 (F64.fin 0)
    (by omega) hgood (Or.inr ⟨0, rfl, by simp⟩)
  have hW := weightSum_within hne
  unfold calculateSimpleSimilarity
  simp only [totals_eq]
  rw [if_pos (@weight_gt_zero (weightSum (comparableSlots composer analysis)) _ hW)]
  exact @score_of_totals (weightedSimilaritySum (comparableSlots composer analysis)) _ _ _ hS hW

theorem score_fallback (u : F64) {composer : Composer} {analysis : ComposerAnalysis}
    (h : comparableSlots composer analysis = []) :
    calculateSimpleSimilarity u composer analysis = F64.lit 30 + u * F64.lit 40 := by
  unfold calculateSimpleSimilarity
  simp only [totals_eq, h, weightSum, List.foldl_nil]
  rw [if_neg]
  rw [lit_zero]
  simp [F64.gt, F64.lt]

theorem fallback_within {x : ℚ} (h0 : 0 ≤ x) (h1 : x < 1) :
    F64.Within 30 70 (F64.lit 30 + F64.fin x * F64.lit 40) := by
  rw [lit_thirty, lit_forty, F64.add_def, F64.mul_def]
  show F64.Within 30 70 (F64.add (F64.fin 30) (F64.ofRat (x * 40)))
  obtain ⟨y, hy, hy0, hy1⟩ :=
    @ofRat_within 0 40 (x * 40) le_rfl roundGrid_zero roundGrid_forty
      (small_lt_huge (by norm_num)) (by linarith) (by linarith)
  rw [hy]
  show F64.Within 30 70 (F64.ofRat (30 + y))
  exact ofRat_within (by norm_num) roundGrid_thirty roundGrid_seventy
    (small_lt_huge (by norm_num)) (by linarith) (by linarith)

/-- On inputs without NaN (finite composer frequencies, no analysis text that
parses to NaN, a draw in `[0, 1)`) the score is a finite value between 0 and
100. -/
theorem score_within_of_no_nan {x : ℚ} {composer : Composer} {analysis : ComposerAnalysis}
    (hc : composer.FiniteFrequencies) (ha : analysis.NoNaN) (h0 : 0 ≤ x) (h1 : x < 1) :
    F64.Within 0 100 (calculateSimpleSimilarity (F64.fin x) composer analysis) := by
  by_cases hne : comparableSlots composer analysis = []
  · rw [score_fallback _ hne]
    obtain ⟨r, hr, hr0, hr1⟩ := fallback_within h0 h1
    exact ⟨r, hr, by linarith, by linarith⟩
  · obtain ⟨n, hn0, hn1, hn⟩ := score_weighted (F64.fin x) hc ha hne
    rw [hn]
    exact (div_hundred_within hn0 hn1).2

/-! ## Processing coordinator: the properties of the specification -/

theorem index_store_self (processing : Processing) (k : Int) (v : Bool) :
    (processing.store k v).index k = v := by
  simp [Processing.index, Processing.store]

theorem index_delete_self (processing : Processing) (k : Int) :
    (processing.delete k).index k = false := by
  simp [Processing.index, Processing.delete]

theorem handler_accepted {processing : Processing} {req : ComposerAnalysisRequest}
    (hs : req.SecretKey = expectedSecretKey)
    (hfree : processing.index req.ComposerAnalysisID = false) :
    CalculateCoincidenceHandler processing ⟨"POST", some req⟩ =
      (⟨StatusAccepted, ResponseBody.accepted⟩,
        processing.store req.ComposerAnalysisID true, [Effect.Go req]) := by
  simp [CalculateCoincidenceHandler, checkAndRegister, hs, hfree]

theorem handler_conflict {processing : Processing} {req : ComposerAnalysisRequest}
    (hs : req.SecretKey = expectedSecretKey)
    (hbusy : processing.index req.ComposerAnalysisID = true) :
    CalculateCoincidenceHandler processing ⟨"POST", some req⟩ =
      (httpError "Analysis already being processed" StatusConflict, processing, []) := by
  simp [CalculateCoincidenceHandler, checkAndRegister, hs, hbusy]

theorem submitTwice_same_id {processing : Processing} {req₁ req₂ : ComposerAnalysisRequest}
    (hs₁ : req₁.SecretKey = expectedSecretKey) (hs₂ : req₂.SecretKey = expectedSecretKey)
    (hid : req₂.ComposerAnalysisID = req₁.ComposerAnalysisID)
    (hfree : processing.index req₁.ComposerAnalysisID = false) :
    submitTwice processing ⟨"POST", some req₁⟩ ⟨"POST", some req₂⟩ =
      (⟨StatusAccepted, ResponseBody.accepted⟩,
        httpError "Analysis already being processed" StatusConflict,
        processing.store req₁.ComposerAnalysisID true, [Effect.Go req₁]) := by
  unfold submitTwice
  simp only [handler_accepted hs₁ hfree]
  have hbusy : (processing.store req₁.ComposerAnalysisID true).index req₂.ComposerAnalysisID
      = true := by
    rw [hid]
    exact index_store_self _ _ _
  simp only [handler_conflict hs₂ hbusy, List.append_nil]

/-- C4: from an in-flight map that does not hold the id, two asynchronous
submissions for that id with the correct secret, their sections under the lock
running in either order with nothing finishing in between, are answered with
one Accepted (the first to take the lock) and one Conflict; one goroutine is
started and the id is registered afterwards. -/
theorem C4_two_submissions_one_accepted_one_conflict (processing : Processing)
    (req₁ req₂ : ComposerAnalysisRequest)
    (hs₁ : req₁.SecretKey = expectedSecretKey) (hs₂ : req₂.SecretKey = expectedSecretKey)
    (hid : req₂.ComposerAnalysisID = req₁.ComposerAnalysisID)
    (hfree : processing.index req₁.ComposerAnalysisID = false) :
    (submitTwice processing ⟨"POST", some req₁⟩ ⟨"POST", some req₂⟩).1.status = StatusAccepted ∧
    (submitTwice processing ⟨"POST", some req₁⟩ ⟨"POST", some req₂⟩).2.1.status = StatusConflict ∧
    (submitTwice processing ⟨"POST", some req₁⟩ ⟨"POST", some req₂⟩).2.2.2 = [Effect.Go req₁] ∧
    (submitTwice processing ⟨"POST", some req₁⟩ ⟨"POST", some req₂⟩).2.2.1.index
      req₁.ComposerAnalysisID = true ∧
    (submitTwice processing ⟨"POST", some req₂⟩ ⟨"POST", some req₁⟩).1.status = StatusAccepted ∧
    (submitTwice processing ⟨"POST", some req₂⟩ ⟨"POST", some req₁⟩).2.1.status = StatusConflict ∧
    (submitTwice processing ⟨"POST", some req₂⟩ ⟨"POST", some req₁⟩).2.2.2 = [Effect.Go req₂] ∧
    (submitTwice processing ⟨"POST", some req₂⟩ ⟨"POST", some req₁⟩).2.2.1.index
      req₁.ComposerAnalysisID = true := by
  have hfree₂ : processing.index req₂.ComposerAnalysisID = false := by rw [hid]; exact hfree
  rw [submitTwice_same_id hs₁ hs₂ hid hfree, submitTwice_same_id hs₂ hs₁ hid.symm hfree₂]
  refine ⟨rfl, rfl, rfl, index_store_self _ _ _, rfl, rfl, rfl, ?_⟩
  rw [hid]
  exact index_store_self _ _ _

/-- C4 at a concrete input: id 7 is free in the empty map. -/
theorem C4_two_submissions_witness :
    (submitTwice Processing.make ⟨"POST", some ⟨7, 1, 2, "music_analysis_secret_2024"⟩⟩
        ⟨"POST", some ⟨7, 3, 4, "music_analysis_secret_2024"⟩⟩).1.status = StatusAccepted ∧
    (submitTwice Processing.make ⟨"POST", some ⟨7, 1, 2, "music_analysis_secret_2024"⟩⟩
        ⟨"POST", some ⟨7, 3, 4, "music_analysis_secret_2024"⟩⟩).2.1.status = StatusConflict :=
  have h := C4_two_submissions_one_accepted_one_conflict Processing.make
    ⟨7, 1, 2, "music_analysis_secret_2024"⟩ ⟨7, 3, 4, "music_analysis_secret_2024"⟩
    (by decide) (by decide) (by decide) (by decide)
  ⟨h.1, h.2.1⟩

/-- C5: whatever the remote reads and the delivery do, when
`processComposerAnalysis` finishes the id of its request is no longer in the
in-flight map, every other key is as before, and an asynchronous submission
for the same id with the correct secret is then Accepted. -/
theorem C5_marker_removed_then_accepted (world : World) (processing : Processing)
    (req next : ComposerAnalysisRequest)
    (hid : next.ComposerAnalysisID = req.ComposerAnalysisID)
    (hs : next.SecretKey = expectedSecretKey) :
    (processComposerAnalysis world processing req).1.index req.ComposerAnalysisID = false ∧
    (∀ j : Int, j ≠ req.ComposerAnalysisID →
      (processComposerAnalysis world processing req).1 j = processing j) ∧
    (CalculateCoincidenceHandler (processComposerAnalysis world processing req).1
      ⟨"POST", some next⟩).1.status = StatusAccepted := by
  have hfree : (processComposerAnalysis world processing req).1.index
      next.ComposerAnalysisID = false := by
    rw [hid]
    exact index_delete_self _ _
  refine ⟨index_delete_self _ _, ?_, ?_⟩
  · intro j hj
    simp [processComposerAnalysis, Processing.delete, Function.update, hj]
  · rw [handler_accepted hs hfree]

/-- C5 at a concrete input: the join record cannot be read, id 7 was
registered, and the next submission for id 7 is accepted. -/
theorem C5_marker_removed_witness :
    (processComposerAnalysis worldWithoutJoinRecord (Processing.make.store 7 true)
      ⟨7, 1, 2, "music_analysis_secret_2024"⟩).1.index 7 = false ∧
    (CalculateCoincidenceHandler
      (processComposerAnalysis worldWithoutJoinRecord (Processing.make.store 7 true)
        ⟨7, 1, 2, "music_analysis_secret_2024"⟩).1
      ⟨"POST", some ⟨7, 1, 2, "music_analysis_secret_2024"⟩⟩).1.status = StatusAccepted :=
  have h := C5_marker_removed_then_accepted worldWithoutJoinRecord (Processing.make.store 7 true)
    ⟨7, 1, 2, "music_analysis_secret_2024"⟩ ⟨7, 1, 2, "music_analysis_secret_2024"⟩
    (by decide) (by decide)
  ⟨h.1, h.2.2⟩

/-- C6: a POST request with a decodable body whose secret differs from the
configured one is answered with 401 by both handlers; neither causes any
effect (no read, no score computation, no callback, no goroutine) and the
in-flight map stays as it was. -/
theorem C6_secret_mismatch_unauthorized (world : World) (processing : Processing)
    (req : ComposerAnalysisRequest) (h : req.SecretKey ≠ expectedSecretKey) :
    CalculateCoincidenceHandler processing ⟨"POST", some req⟩ =
      (httpError "Invalid secret key" StatusUnauthorized, processing, []) ∧
    CalculateCoincidenceSyncHandler world processing ⟨"POST", some req⟩ =
      (httpError "Invalid secret key" StatusUnauthorized, processing, []) := by
  constructor
  · simp [CalculateCoincidenceHandler, h]
  · simp [CalculateCoincidenceSyncHandler, h]

/-- C6 at a concrete input: the secret `"guess"`. -/
theorem C6_secret_mismatch_witness :
    (CalculateCoincidenceHandler Processing.make ⟨"POST", some ⟨7, 1, 2, "guess"⟩⟩).1.status
      = StatusUnauthorized ∧
    (CalculateCoincidenceSyncHandler worldWithoutJoinRecord Processing.make
      ⟨"POST", some ⟨7, 1, 2, "guess"⟩⟩).2.2 = [] :=
  have h := C6_secret_mismatch_unauthorized worldWithoutJoinRecord Processing.make
    ⟨7, 1, 2, "guess"⟩ (by decide)
  ⟨by rw [h.1]; rfl, by rw [h.2]⟩

theorem callbackWrites_send (world : World) (id : Int) (coincidence : F64) :
    callbackWrites (sendResultToDjango world id coincidence) =
      if jsonEncodable coincidence then 1 else 0 := by
  unfold sendResultToDjango callbackWrites
  simp only
  cases jsonEncodable coincidence
  · simp
  · rcases world.httpPost (world.djangoClient.baseURL ++ "/api/analysis-callback/")
      ⟨id, coincidence, "music_analysis_secret_2024"⟩ with e | c <;>
      simp [Effect.isPost]

theorem send_starts_nothing (world : World) (id : Int) (coincidence : F64) :
    (sendResultToDjango world id coincidence).all (fun e => !e.isGo) = true := by
  unfold sendResultToDjango
  simp only
  cases jsonEncodable coincidence
  · simp
  · rcases world.httpPost (world.djangoClient.baseURL ++ "/api/analysis-callback/")
      ⟨id, coincidence, "music_analysis_secret_2024"⟩ with e | c <;>
      simp [Effect.isGo]

/-- The callback writes of a run of `processComposerAnalysis`: none when
either read fails; when both succeed, one if `json.Marshal` accepts the score
and none if it does not; and exactly one whenever the composer frequencies are
finite, no analysis text parses to NaN and the draw lies in `[0, 1)`.  The
outcome of the write changes nothing: the run starts no goroutine, so nothing
is retried, and it ends with the id out of the in-flight map. -/
theorem callback_written_at_most_once (world : World) (processing : Processing)
    (req : ComposerAnalysisRequest) :
    (∀ e, world.djangoClient.GetComposerAnalysis req.ComposerAnalysisID req.AnalysisID
        req.ComposerID = Except.error e →
      callbackWrites (processComposerAnalysis world processing req).2 = 0) ∧
    (∀ e, world.djangoClient.GetComposer req.ComposerID = Except.error e →
      callbackWrites (processComposerAnalysis world processing req).2 = 0) ∧
    (∀ a c, world.djangoClient.GetComposerAnalysis req.ComposerAnalysisID req.AnalysisID
        req.ComposerID = Except.ok a →
      world.djangoClient.GetComposer req.ComposerID = Except.ok c →
      callbackWrites (processComposerAnalysis world processing req).2 =
        if jsonEncodable (CalculatePotentialCoincidence world.uDelay world.uFallback c a)
        then 1 else 0) ∧
    (∀ a c x, world.djangoClient.GetComposerAnalysis req.ComposerAnalysisID req.AnalysisID
        req.ComposerID = Except.ok a →
      world.djangoClient.GetComposer req.ComposerID = Except.ok c →
      c.FiniteFrequencies → a.NoNaN → world.uFallback = F64.fin x → 0 ≤ x → x < 1 →
      callbackWrites (processComposerAnalysis world processing req).2 = 1) ∧
    (processComposerAnalysis world processing req).2.all (fun e => !e.isGo) = true ∧
    (processComposerAnalysis world processing req).1.index req.ComposerAnalysisID = false := by
  have key : ∀ a c, world.djangoClient.GetComposerAnalysis req.ComposerAnalysisID
        req.AnalysisID req.ComposerID = Except.ok a →
      world.djangoClient.GetComposer req.ComposerID = Except.ok c →
      callbackWrites (processComposerAnalysis world processing req).2 =
        if jsonEncodable (CalculatePotentialCoincidence world.uDelay world.uFallback c a)
        then 1 else 0 := by
    intro a c hA hC
    have := callbackWrites_send world req.ComposerAnalysisID
      (CalculatePotentialCoincidence world.uDelay world.uFallback c a)
    simp only [processComposerAnalysis, processComposerAnalysisBody, hA, hC]
    simpa [callbackWrites, Effect.isPost] using this
  refine ⟨?_, ?_, key, ?_, ?_, index_delete_self _ _⟩
  · intro e hA
    simp [processComposerAnalysis, processComposerAnalysisBody, hA, callbackWrites,
      Effect.isPost]
  · intro e hC
    rcases hA : world.djangoClient.GetComposerAnalysis req.ComposerAnalysisID req.AnalysisID
        req.ComposerID with e' | a
    · simp [processComposerAnalysis, processComposerAnalysisBody, hA, callbackWrites,
        Effect.isPost]
    · simp [processComposerAnalysis, processComposerAnalysisBody, hA, hC, callbackWrites,
        Effect.isPost]
  · intro a c x hA hC hc ha hu h0 h1
    rw [key a c hA hC]
    obtain ⟨r, hr, _, _⟩ := score_within_of_no_nan hc ha h0 h1
    simp [CalculatePotentialCoincidence, hu, hr, jsonEncodable]
  · rcases hA : world.djangoClient.GetComposerAnalysis req.ComposerAnalysisID req.AnalysisID
        req.ComposerID with e' | a
    · simp [processComposerAnalysis, processComposerAnalysisBody, hA, Effect.isGo]
    · rcases hC : world.djangoClient.GetComposer req.ComposerID with e' | c
      · simp [processComposerAnalysis, processComposerAnalysisBody, hA, hC, Effect.isGo]
      · have := send_starts_nothing world req.ComposerAnalysisID
          (CalculatePotentialCoincidence world.uDelay world.uFallback c a)
        simp only [processComposerAnalysis, processComposerAnalysisBody, hA, hC]
        simpa [Effect.isGo] using this

/-- C7: the code misses the one callback write the claim requires when both
reads succeed: with composer frequency 50.0 and an analysis whose first text
is `"NaN"`, the score is NaN (the clamp of `calculateSimpleSimilarity` lets it
through), `json.Marshal` rejects it and `sendResultToDjango` returns without
writing. -/
theorem C7_no_callback_for_nan_score :
    (worldWith analysisNaN composerFifty (F64.fin 0)).djangoClient.GetComposerAnalysis 7 2 1
      = Except.ok analysisNaN ∧
    (worldWith analysisNaN composerFifty (F64.fin 0)).djangoClient.GetComposer 1
      = Except.ok composerFifty ∧
    callbackWrites (processComposerAnalysis (worldWith analysisNaN composerFifty (F64.fin 0))
      Processing.make ⟨7, 1, 2, "music_analysis_secret_2024"⟩).2 = 0 :=
  ⟨rfl, rfl, by decide!⟩

/-- The callback writes at concrete inputs: both reads succeed with frequency
50.0 throughout and one callback is written; the join record cannot be read
and none is written. -/
theorem callback_written_at_concrete_worlds :
    callbackWrites (processComposerAnalysis (worldWith analysisFifty composerFifty (F64.fin 0))
      Processing.make ⟨7, 1, 2, "music_analysis_secret_2024"⟩).2 = 1 ∧
    callbackWrites (processComposerAnalysis worldWithoutJoinRecord
      Processing.make ⟨7, 1, 2, "music_analysis_secret_2024"⟩).2 = 0 :=
  ⟨(callback_written_at_most_once (worldWith analysisFifty composerFifty (F64.fin 0))
      Processing.make ⟨7, 1, 2, "music_analysis_secret_2024"⟩).2.2.2.1
      analysisFifty composerFifty 0 rfl rfl
      (by simp [Composer.FiniteFrequencies, composerFifty, composerWith])
      (by simp [ComposerAnalysis.NoNaN, intervals, analysisFifty, analysisWith, parseFloat])
      rfl le_rfl (by norm_num),
    (callback_written_at_most_once worldWithoutJoinRecord
      Processing.make ⟨7, 1, 2, "music_analysis_secret_2024"⟩).1 "unavailable" rfl⟩

/-! ## Similarity engine: the properties of the specification -/

theorem totals_nan : totals composerFifty analysisNaN = (F64.nan, F64.fin (1 / 4)) := by
  decide!

/-- C1: the code leaves the range at an analysis whose first text is `"NaN"`
(composer frequency 50.0): for every draw the score is NaN, which is neither
at least 0 nor at most 100. -/
theorem C1_score_is_nan_for_nan_text (uDelay u : F64) :
    calculateSimpleSimilarity u composerFifty analysisNaN = F64.nan ∧
    CalculatePotentialCoincidence uDelay u composerFifty analysisNaN = F64.nan ∧
    F64.le (F64.fin 0) (calculateSimpleSimilarity u composerFifty analysisNaN) = false ∧
    F64.le (calculateSimpleSimilarity u composerFifty analysisNaN) (F64.fin 100) = false := by
  have h : calculateSimpleSimilarity u composerFifty analysisNaN = F64.nan := by
    unfold calculateSimpleSimilarity
    simp only [totals_nan]
    rw [if_pos (by decide!)]
    decide!
  exact ⟨h, h, by rw [h]; rfl, by rw [h]; rfl⟩

theorem noComparableData_absent (composer : Composer) :
    NoComparableData composer analysisAbsent := by
  intro interval hmem
  left
  simp only [intervals, analysisAbsent, analysisWith, List.mem_cons, List.mem_singleton,
    List.not_mem_nil, or_false] at hmem
  rcases hmem with rfl | rfl | rfl | rfl | rfl <;> rfl

/-- C3 as stated fails: with no comparable data and the draw `u = 1 - 2^-53`,
the largest `float64` below 1, the score is exactly 70, not below 70.  The
product `u * 40 = 40 - 5 * 2^-50` lies between the neighbours `40 - 2^-47` and
`40` and rounds to the nearer `40 - 2^-47`; the sum `30 + (40 - 2^-47)` lies
halfway between the neighbours `70 - 2^-46` and `70` and rounds to the even
one, `70`.  (Rounding `30 + u * 40` once, as a fused multiply-add does, gives
70 as well.) -/
theorem C3_fallback_reaches_seventy :
    NoComparableData (composerWith []) analysisAbsent ∧
    F64.ofRat (1 - 1 / 2 ^ 53) = F64.fin (1 - 1 / 2 ^ 53) ∧
    (0 : ℚ) ≤ 1 - 1 / 2 ^ 53 ∧ (1 - 1 / 2 ^ 53 : ℚ) < 1 ∧
    F64.fin (1 - 1 / 2 ^ 53) * F64.lit 40 = F64.fin (40 - 1 / 2 ^ 47) ∧
    calculateSimpleSimilarity (F64.fin (1 - 1 / 2 ^ 53)) (composerWith []) analysisAbsent
      = F64.fin 70 ∧
    F64.ofRat (30 + (1 - 1 / 2 ^ 53) * 40) = F64.fin 70 :=
  ⟨noComparableData_absent _, by decide!, by norm_num, by norm_num, by decide!, by decide!,
    by decide!⟩

theorem roundGrid_below_forty :
    roundGrid ((1 - 3 / 2 ^ 53) * 40) = 40 - 1 / 2 ^ 46 := by decide!

theorem roundGrid_below_seventy :
    roundGrid (30 + (40 - 1 / 2 ^ 46)) = 70 - 1 / 2 ^ 46 := by decide!

/-- C3, amended: when no slot has comparable data and the draw is `u` with
`0 ≤ u < 1`, `calculateSimpleSimilarity` returns the `float64` sum
`30 + u * 40` (product and sum each rounded), a finite value `r` with
`30 ≤ r ≤ 70`; and `r < 70` as soon as `u ≤ 1 - 3 * 2^-53`, that is, for
every draw but the two largest `float64` values below 1. -/
theorem C3_no_data_fallback (x : ℚ) (composer : Composer) (analysis : ComposerAnalysis)
    (h : NoComparableData composer analysis) (h0 : 0 ≤ x) (h1 : x < 1) :
    calculateSimpleSimilarity (F64.fin x) composer analysis
      = F64.lit 30 + F64.fin x * F64.lit 40 ∧
    ∃ r : ℚ, calculateSimpleSimilarity (F64.fin x) composer analysis = F64.fin r ∧
      30 ≤ r ∧ r ≤ 70 ∧ (x ≤ 1 - 3 / 2 ^ 53 → r < 70) := by
  have hfb := score_fallback (F64.fin x) (comparableSlots_eq_nil h)
  refine ⟨hfb, ?_⟩
  obtain ⟨r, hr, hr0, hr1⟩ := fallback_within h0 h1
  refine ⟨r, by rw [hfb, hr], hr0, hr1, ?_⟩
  intro hx
  -- the product stays at or below `40 - 2^-46`, and so does the sum below `70 - 2^-46`
  rw [lit_thirty, lit_forty, F64.add_def, F64.mul_def] at hr
  have hp : F64.mul (F64.fin x) (F64.fin 40) = F64.ofRat (x * 40) := rfl
  rw [hp] at hr
  obtain ⟨y, hy, hy0, hy1⟩ :=
    @ofRat_within 0 40 (x * 40) le_rfl roundGrid_zero roundGrid_forty
      (small_lt_huge (by norm_num)) (by linarith) (by linarith)
  have hy2 : y ≤ 40 - 1 / 2 ^ 46 := by
    have e : y = roundGrid (x * 40) := by
      have := hy
      unfold F64.ofRat at this
      simp only at this
      split_ifs at this
      exact (F64.fin.inj this).symm
    rw [e, ← roundGrid_below_forty]
    exact roundGrid_mono_nonneg (by linarith) (by linarith)
  rw [hy] at hr
  have hs : F64.add (F64.fin 30) (F64.fin y) = F64.ofRat (30 + y) := rfl
  rw [hs] at hr
  have e : r = roundGrid (30 + y) := by
    have := hr
    unfold F64.ofRat at this
    simp only at this
    split_ifs at this
    exact (F64.fin.inj this).symm
  have : r ≤ 70 - 1 / 2 ^ 46 := by
    rw [e, ← roundGrid_below_seventy]
    exact roundGrid_mono_nonneg (by linarith) (by linarith)
  have : (0 : ℚ) < 1 / 2 ^ 46 := by positivity
  linarith

/-- C3, amended, at a concrete input: all texts absent, draw 1/2. -/
theorem C3_no_data_fallback_witness :
    NoComparableData (composerWith []) analysisAbsent ∧
    calculateSimpleSimilarity (F64.fin (1 / 2)) (composerWith []) analysisAbsent
      = F64.lit 30 + F64.fin (1 / 2) * F64.lit 40 :=
  ⟨noComparableData_absent _,
    (C3_no_data_fallback (1 / 2) (composerWith []) analysisAbsent (noComparableData_absent _)
      (by norm_num) (by norm_num)).1⟩

theorem ofRat_eq_fin {q r : ℚ} (h : F64.ofRat q = F64.fin r) : r = roundGrid q := by
  unfold F64.ofRat at h
  simp only at h
  split_ifs at h
  exact (F64.fin.inj h).symm

theorem roundGrid_3003 : roundGrid (3003 / 100) < 3845 / 128 := by decide!
theorem roundGrid_3004 : (3845 / 128 : ℚ) < roundGrid (3004 / 100) := by decide!

theorem not_twoDecimals_fallback : ¬ TwoDecimals (F64.fin (3845 / 128)) := by
  rintro ⟨n, hn⟩
  have e := ofRat_eq_fin hn.symm
  rcases le_or_lt n 3003 with h | h
  · have hq : (n : ℚ) / 100 ≤ 3003 / 100 := by
      have : (n : ℚ) ≤ 3003 := by exact_mod_cast h
      linarith
    rcases le_or_lt 0 n with h0 | h0
    · have h0' : (0 : ℚ) ≤ (n : ℚ) / 100 := by
        have : (0 : ℚ) ≤ (n : ℚ) := by exact_mod_cast h0
        positivity
      have := roundGrid_mono_nonneg h0' hq
      have := roundGrid_3003
      linarith
    · have : (n : ℚ) / 100 ≤ 0 := by
        have : (n : ℚ) < 0 := by exact_mod_cast h0
        linarith
      have := roundGrid_nonpos this
      linarith
  · have hq : (3004 : ℚ) / 100 ≤ (n : ℚ) / 100 := by
      have : (3004 : ℚ) ≤ (n : ℚ) := by exact_mod_cast h
      linarith
    have := roundGrid_mono_nonneg (by norm_num) hq
    have := roundGrid_3004
    linarith

theorem hasComparableData_first_slot :
    HasComparableData composerZero analysisTwelveAndHalf :=
  ⟨⟨0, some (FreqText.parses (F64.fin (25 / 2))), F64.lit 0.25⟩, by
      simp [intervals, analysisTwelveAndHalf, analysisWith],
    ⟨"", some (F64.fin 0), none⟩, F64.fin 0, F64.fin (25 / 2), rfl, rfl, rfl⟩

/-- C2: the code misses the rounding on its fallback return: with all five
texts absent and the draw `1/1024` the score is `30 + 40/1024 = 30.0390625`;
it is not the `float64` of any `n / 100`, and 100 times it is `3003.90625`,
not a whole number. -/
theorem C2_fallback_not_rounded :
    calculateSimpleSimilarity (F64.fin (1 / 1024)) (composerWith []) analysisAbsent
      = F64.fin (3845 / 128) ∧
    ¬ TwoDecimals
      (calculateSimpleSimilarity (F64.fin (1 / 1024)) (composerWith []) analysisAbsent) ∧
    calculateSimpleSimilarity (F64.fin (1 / 1024)) (composerWith []) analysisAbsent
      * F64.lit 100 = F64.fin (96125 / 32) := by
  have h : calculateSimpleSimilarity (F64.fin (1 / 1024)) (composerWith []) analysisAbsent
      = F64.fin (3845 / 128) := by decide!
  refine ⟨h, ?_, ?_⟩
  · rw [h]
    exact not_twoDecimals_fallback
  · rw [h]
    decide!

/-- On the return that rounds: when at least one slot has comparable data,
the composer frequencies are finite and no analysis text parses to NaN, the
score has at most two decimal digits: it is the `float64` nearest to `n / 100`
for a whole number `n` between 0 and 10000. -/
theorem weighted_score_two_decimals (u : F64) (composer : Composer)
    (analysis : ComposerAnalysis) (hc : composer.FiniteFrequencies) (ha : analysis.NoNaN)
    (hd : HasComparableData composer analysis) :
    TwoDecimals (calculateSimpleSimilarity u composer analysis) ∧
    ∃ n : ℤ, 0 ≤ n ∧ n ≤ 10000 ∧
      calculateSimpleSimilarity u composer analysis = F64.ofRat ((n : ℚ) / 100) := by
  obtain ⟨n, h0, h1, h⟩ := score_weighted u hc ha (comparableSlots_ne_nil hd)
  exact ⟨⟨n, h⟩, n, h0, h1, h⟩

/-- Two decimal digits at a concrete input: composer frequency 0.0 and
analysis text `"12.5"` in the first slot. -/
theorem weighted_score_two_decimals_at_first_slot :
    composerZero.FiniteFrequencies ∧ analysisTwelveAndHalf.NoNaN ∧
    HasComparableData composerZero analysisTwelveAndHalf ∧
    TwoDecimals (calculateSimpleSimilarity (F64.fin 0) composerZero analysisTwelveAndHalf) :=
  have hc : composerZero.FiniteFrequencies := by
    simp [Composer.FiniteFrequencies, composerZero, composerWith]
  have ha : analysisTwelveAndHalf.NoNaN := by
    simp [ComposerAnalysis.NoNaN, intervals, analysisTwelveAndHalf, analysisWith, parseFloat]
  ⟨hc, ha, hasComparableData_first_slot,
    (weighted_score_two_decimals (F64.fin 0) composerZero analysisTwelveAndHalf hc ha
      hasComparableData_first_slot).1⟩

theorem ofRat_zero : F64.ofRat 0 = F64.fin 0 := by decide!
theorem ofRat_one : F64.ofRat 1 = F64.fin 1 := by decide!
theorem ofRat_hundred : F64.ofRat 100 = F64.fin 100 := by decide!
theorem ofRat_neg_hundred : F64.ofRat (-100) = F64.fin (-100) := by decide!

theorem similarity_of_equal (q : ℚ) :
    F64.lit 1 - F64.abs (F64.fin q - F64.fin q) / F64.lit 100 = F64.fin 1 := by
  have e₁ : F64.fin q - F64.fin q = F64.fin 0 := by
    show F64.ofRat (q + -q) = F64.fin 0
    rw [add_neg_cancel, ofRat_zero]
  have e₂ : F64.abs (F64.fin 0) = F64.fin 0 := by simp [F64.abs]
  have e₃ : F64.fin 0 / F64.fin 100 = F64.fin 0 := by
    show F64.div (F64.fin 0) (F64.fin 100) = F64.fin 0
    simp [F64.div, ofRat_zero]
  have e₄ : F64.fin 1 - F64.fin 0 = F64.fin 1 := by
    show F64.ofRat (1 + -0) = F64.fin 1
    rw [neg_zero, add_zero, ofRat_one]
  rw [e₁, e₂, lit_hundred, e₃, lit_one, e₄]

theorem similarity_of_hundred_apart {a c : ℚ} (h : |a - c| = 100) :
    F64.lit 1 - F64.abs (F64.fin a - F64.fin c) / F64.lit 100 = F64.fin 0 := by
  have e₁ : F64.abs (F64.fin a - F64.fin c) = F64.fin 100 := by
    show F64.abs (F64.ofRat (a + -c)) = F64.fin 100
    rw [← sub_eq_add_neg]
    rcases abs_eq (by norm_num : (0 : ℚ) ≤ 100) |>.mp h with e | e
    · rw [e, ofRat_hundred]
      simp [F64.abs]
    · rw [e, ofRat_neg_hundred]
      simp [F64.abs]
  have e₃ : F64.fin 100 / F64.fin 100 = F64.fin 1 := by
    show F64.div (F64.fin 100) (F64.fin 100) = F64.fin 1
    simp [F64.div, ofRat_one]
  have e₄ : F64.fin 1 - F64.fin 1 = F64.fin 0 := by
    show F64.ofRat (1 + -1) = F64.fin 0
    rw [add_neg_cancel, ofRat_zero]
  rw [e₁, lit_hundred, e₃, lit_one, e₄]

/-- The totals when every one of the five slots has comparable data and the
same similarity `s`. -/
theorem totals_of_constant_similarity {composer : Composer} {analysis : ComposerAnalysis}
    {s : F64}
    (h : ∀ interval ∈ intervals analysis, ∃ a c : F64,
      slotData composer interval = some (a, c) ∧
      F64.lit 1 - F64.abs (a - c) / F64.lit 100 = s) :
    totals composer analysis =
      (F64.fin 0 + s * F64.lit 0.25 + s * F64.lit 0.20 + s * F64.lit 0.20 + s * F64.lit 0.20
          + s * F64.lit 0.15,
        F64.fin 0 + F64.lit 0.25 + F64.lit 0.20 + F64.lit 0.20 + F64.lit 0.20
          + F64.lit 0.15) := by
  obtain ⟨a₀, c₀, h₀, s₀⟩ := h ⟨0, analysis.AnonUnisonsSecondsFreq, F64.lit 0.25⟩
    (by simp [intervals])
  obtain ⟨a₁, c₁, h₁, s₁⟩ := h ⟨1, analysis.AnonThirdsFreq, F64.lit 0.20⟩
    (by simp [intervals])
  obtain ⟨a₂, c₂, h₂, s₂⟩ := h ⟨2, analysis.AnonFourthsFifthsFreq, F64.lit 0.20⟩
    (by simp [intervals])
  obtain ⟨a₃, c₃, h₃, s₃⟩ := h ⟨3, analysis.AnonSixthsSeventhsFreq, F64.lit 0.20⟩
    (by simp [intervals])
  obtain ⟨a₄, c₄, h₄, s₄⟩ := h ⟨4, analysis.AnonOctavesFreq, F64.lit 0.15⟩
    (by simp [intervals])
  rw [totals_eq]
  have hslots : comparableSlots composer analysis =
      [⟨a₀, c₀, F64.lit 0.25⟩, ⟨a₁, c₁, F64.lit 0.20⟩, ⟨a₂, c₂, F64.lit 0.20⟩,
        ⟨a₃, c₃, F64.lit 0.20⟩, ⟨a₄, c₄, F64.lit 0.15⟩] := by
    simp only [comparableSlots, intervals, List.filterMap_cons, List.filterMap_nil, slotOf,
      h₀, h₁, h₂, h₃, h₄, Option.map_some']
  rw [hslots]
  simp only [weightedSimilaritySum, weightSum, List.foldl_cons, List.foldl_nil, s₀, s₁, s₂, s₃,
    s₄]

theorem score_of_similarity_one (u : F64) :
    (if F64.gt (F64.fin 0 + F64.lit 0.25 + F64.lit 0.20 + F64.lit 0.20 + F64.lit 0.20
          + F64.lit 0.15) (F64.lit 0) then
        F64.round (F64.max (F64.lit 0) (F64.min (F64.lit 100)
          ((F64.fin 0 + F64.fin 1 * F64.lit 0.25 + F64.fin 1 * F64.lit 0.20
              + F64.fin 1 * F64.lit 0.20 + F64.fin 1 * F64.lit 0.20 + F64.fin 1 * F64.lit 0.15)
            / (F64.fin 0 + F64.lit 0.25 + F64.lit 0.20 + F64.lit 0.20 + F64.lit 0.20
              + F64.lit 0.15) * F64.lit 100)) * F64.lit 100) / F64.lit 100
      else F64.lit 30 + u * F64.lit 40) = F64.fin 100 := by
  rw [if_pos (by decide!)]
  decide!

theorem score_of_similarity_zero (u : F64) :
    (if F64.gt (F64.fin 0 + F64.lit 0.25 + F64.lit 0.20 + F64.lit 0.20 + F64.lit 0.20
          + F64.lit 0.15) (F64.lit 0) then
        F64.round (F64.max (F64.lit 0) (F64.min (F64.lit 100)
          ((F64.fin 0 + F64.fin 0 * F64.lit 0.25 + F64.fin 0 * F64.lit 0.20
              + F64.fin 0 * F64.lit 0.20 + F64.fin 0 * F64.lit 0.20 + F64.fin 0 * F64.lit 0.15)
            / (F64.fin 0 + F64.lit 0.25 + F64.lit 0.20 + F64.lit 0.20 + F64.lit 0.20
              + F64.lit 0.15) * F64.lit 100)) * F64.lit 100) / F64.lit 100
      else F64.lit 30 + u * F64.lit 40) = F64.fin 0 := by
  rw [if_pos (by decide!)]
  decide!

/-- C8: when in all five slots the composer has a finite frequency and the
analysis text parses to the same number, `calculateSimpleSimilarity` returns
exactly 100, whatever the draw. -/
theorem C8_equal_frequencies_score_hundred (u : F64) (composer : Composer)
    (analysis : ComposerAnalysis) (h : AllSlotsEqual composer analysis) :
    calculateSimpleSimilarity u composer analysis = F64.fin 100 := by
  have ht := @totals_of_constant_similarity composer analysis (F64.fin 1) (by
    intro interval hmem
    obtain ⟨stat, q, hs, hf, ha⟩ := h interval hmem
    exact ⟨F64.fin q, F64.fin q, by simp [slotData, hs, hf, ha, parseFloat],
      similarity_of_equal q⟩)
  unfold calculateSimpleSimilarity
  simp only [ht]
  exact score_of_similarity_one u

theorem allSlotsEqual_fifty : AllSlotsEqual composerFifty analysisFifty := by
  intro interval hmem
  simp only [intervals, analysisFifty, analysisWith, List.mem_cons, List.mem_singleton,
    List.not_mem_nil, or_false] at hmem
  rcases hmem with rfl | rfl | rfl | rfl | rfl <;>
    exact ⟨⟨"", some (F64.fin 50), none⟩, 50, rfl, rfl, rfl⟩

/-- C8 at the input of the specification: composer frequency 50.0 and
analysis frequency 50.0 in all five slots. -/
theorem C8_fifty_fifty_witness :
    AllSlotsEqual composerFifty analysisFifty ∧
    calculateSimpleSimilarity (F64.fin 0) composerFifty analysisFifty = F64.fin 100 :=
  ⟨allSlotsEqual_fifty,
    C8_equal_frequencies_score_hundred (F64.fin 0) composerFifty analysisFifty
      allSlotsEqual_fifty⟩

/-- C9: when in all five slots the composer frequency and the parsed analysis
frequency are finite and exactly 100 apart, `calculateSimpleSimilarity`
returns exactly 0, whatever the draw. -/
theorem C9_hundred_apart_score_zero (u : F64) (composer : Composer)
    (analysis : ComposerAnalysis) (h : AllSlotsHundredApart composer analysis) :
    calculateSimpleSimilarity u composer analysis = F64.fin 0 := by
  have ht := @totals_of_constant_similarity composer analysis (F64.fin 0) (by
    intro interval hmem
    obtain ⟨stat, a, c, hs, hf, ha, hd⟩ := h interval hmem
    exact ⟨F64.fin a, F64.fin c, by simp [slotData, hs, hf, ha, parseFloat],
      similarity_of_hundred_apart hd⟩)
  unfold calculateSimpleSimilarity
  simp only [ht]
  exact score_of_similarity_zero u

theorem allSlotsHundredApart_zero_hundred :
    AllSlotsHundredApart composerAllZero analysisHundred := by
  intro interval hmem
  simp only [intervals, analysisHundred, analysisWith, List.mem_cons, List.mem_singleton,
    List.not_mem_nil, or_false] at hmem
  rcases hmem with rfl | rfl | rfl | rfl | rfl <;>
    exact ⟨⟨"", some (F64.fin 0), none⟩, 100, 0, rfl, rfl, rfl, by norm_num⟩

/-- C9 at the input of the specification: composer frequency 0.0 and analysis
frequency 100.0 in all five slots. -/
theorem C9_zero_hundred_witness :
    AllSlotsHundredApart composerAllZero analysisHundred ∧
    calculateSimpleSimilarity (F64.fin 0) composerAllZero analysisHundred = F64.fin 0 :=
  ⟨allSlotsHundredApart_zero_hundred,
    C9_hundred_apart_score_zero (F64.fin 0) composerAllZero analysisHundred
      allSlotsHundredApart_zero_hundred⟩

/-- The `float64` product does not depend on the order of its factors. -/
theorem product_comm (x y : F64) : x * y = y * x := by
  rw [F64.mul_def, F64.mul_def]
  cases x <;> cases y <;> simp [F64.mul, Bool.xor_comm, mul_comm]

end AttributionService
